import Mathlib

/-!
# Verification of the VPRO Cinema Plex provider core

A shallow embedding, in Lean 4, of the core algorithms of the
`vpro-cinema-plex` repository (Python), together with proofs of the
behavioural properties stated in its specification.

Modelling conventions, used throughout:

* Python `float` timestamps (`time.monotonic()`, `time.time()`) are modelled
  as rationals (`Time := ℚ`); machine rounding plays no role in any claim.
* Python strings are modelled as Lean `String` where only equality,
  prefix/suffix and splitting are used (cache keys, paths), and as
  `List Char` (`PyStr`) where per-character Unicode processing matters
  (the text-normalisation pipeline).
* Stateful methods become pure functions from the old state (plus the
  values read from the clock or the network during the call) to the new
  state and the returned value.
* Network and filesystem reads that the claims treat as opaque
  (HTTP responses, `hashlib.sha256`, `datetime.fromisoformat`) are passed
  in as function parameters; the functions under test never inspect them
  beyond what the Python code does.
-/

/-- Monotonic-clock values (`time.monotonic()` floats) modelled as rationals. -/
abbrev Time : Type := ℚ

/-! ## CircuitBreaker (src/vpro_scraper.py, lines 66-116)

State of `CircuitBreaker.__init__`: configuration plus the mutable fields
`_failures` and `_circuit_opened_at`. -/

structure CircuitBreaker where
  failure_threshold : ℕ := 3
  failure_window : Time := 60
  recovery_time : Time := 300
  failures : List Time := []
  circuit_opened_at : Option Time := none
deriving DecidableEq

/-- `CircuitBreaker.is_open` (vpro_scraper.py 82-94).  The method can mutate
the breaker (self-close after recovery), so it returns the updated state
with the boolean.  `now` is the value read from `time.monotonic()`. -/
def CircuitBreaker.is_open (cb : CircuitBreaker) (now : Time) : Bool × CircuitBreaker :=
  match cb.circuit_opened_at with
  | none => (false, cb)
  | some openedAt =>
    if now - openedAt ≥ cb.recovery_time then
      (false, { cb with circuit_opened_at := none, failures := [] })
    else
      (true, cb)

/-- `CircuitBreaker.record_success` (vpro_scraper.py 96-101). -/
def CircuitBreaker.record_success (cb : CircuitBreaker) : CircuitBreaker :=
  { cb with failures := [], circuit_opened_at := none }

/-- `CircuitBreaker.record_failure` (vpro_scraper.py 103-116): prune failures
outside the window, append `now`, open the circuit when the in-window count
reaches the threshold. -/
def CircuitBreaker.record_failure (cb : CircuitBreaker) (now : Time) : CircuitBreaker :=
  if ((cb.failures.filter (fun t => now - t < cb.failure_window)) ++ [now]).length
      ≥ cb.failure_threshold then
    { cb with failures := (cb.failures.filter (fun t => now - t < cb.failure_window)) ++ [now],
              circuit_opened_at := some now }
  else
    { cb with failures := (cb.failures.filter (fun t => now - t < cb.failure_window)) ++ [now] }

@[simp] theorem CircuitBreaker.record_failure_threshold (cb : CircuitBreaker) (now : Time) :
    (cb.record_failure now).failure_threshold = cb.failure_threshold := by
  unfold CircuitBreaker.record_failure; split <;> rfl

@[simp] theorem CircuitBreaker.record_failure_window (cb : CircuitBreaker) (now : Time) :
    (cb.record_failure now).failure_window = cb.failure_window := by
  unfold CircuitBreaker.record_failure; split <;> rfl

@[simp] theorem CircuitBreaker.record_failure_recovery (cb : CircuitBreaker) (now : Time) :
    (cb.record_failure now).recovery_time = cb.recovery_time := by
  unfold CircuitBreaker.record_failure; split <;> rfl

@[simp] theorem CircuitBreaker.record_failure_failures (cb : CircuitBreaker) (now : Time) :
    (cb.record_failure now).failures
      = (cb.failures.filter (fun t => now - t < cb.failure_window)) ++ [now] := by
  unfold CircuitBreaker.record_failure; split <;> rfl

/-- C3: from any breaker state configured with threshold 3, window 60 and
recovery 300, three `record_failure` calls at times `t1 ≤ t2 ≤ t3` that all
lie within the 60-second window leave the circuit opened at `t3`; `is_open`
then returns `true` (without changing the state) at every instant less than
300 seconds after `t3`, returns `false` and clears the failure history at
every instant at least 300 seconds after `t3`; and `record_success` closes
the breaker and clears the history at any time. -/
theorem C3_circuit_breaker_window_and_recovery
    (cb : CircuitBreaker) (t1 t2 t3 : Time)
    (hth : cb.failure_threshold = 3) (hw : cb.failure_window = 60)
    (hr : cb.recovery_time = 300)
    (h12 : t1 ≤ t2) (h23 : t2 ≤ t3) (hwin : t3 - t1 < 60) :
    (((cb.record_failure t1).record_failure t2).record_failure t3).circuit_opened_at = some t3
    ∧ (∀ t : Time, t - t3 < 300 →
        ((((cb.record_failure t1).record_failure t2).record_failure t3).is_open t).1 = true
        ∧ ((((cb.record_failure t1).record_failure t2).record_failure t3).is_open t).2
            = ((cb.record_failure t1).record_failure t2).record_failure t3)
    ∧ (∀ t : Time, 300 ≤ t - t3 →
        ((((cb.record_failure t1).record_failure t2).record_failure t3).is_open t).1 = false
        ∧ ((((cb.record_failure t1).record_failure t2).record_failure t3).is_open t).2.failures = []
        ∧ ((((cb.record_failure t1).record_failure t2).record_failure t3).is_open t).2.circuit_opened_at
            = none)
    ∧ (∀ cb' : CircuitBreaker,
        cb'.record_success.failures = [] ∧ cb'.record_success.circuit_opened_at = none
        ∧ ∀ t : Time, (cb'.record_success.is_open t).1 = false) := by
  have h13 : t3 - t1 < 60 := hwin
  have h23' : t3 - t2 < 60 := by linarith
  have h12' : t2 - t1 < 60 := by linarith
  set cb1 := cb.record_failure t1 with hcb1
  set cb2 := cb1.record_failure t2 with hcb2
  set cb3 := cb2.record_failure t3 with hcb3
  -- the failure list after the third call contains t1, t2 and t3
  have hf1 : t1 ∈ cb1.failures := by
    rw [hcb1, CircuitBreaker.record_failure_failures]
    simp
  have hf2a : t1 ∈ cb2.failures := by
    rw [hcb2, CircuitBreaker.record_failure_failures]
    have : (cb1.failure_window) = 60 := by rw [hcb1, CircuitBreaker.record_failure_window, hw]
    rw [this]
    refine List.mem_append_left _ ?_
    exact List.mem_filter.mpr ⟨hf1, by simp; linarith⟩
  have hf2b : t2 ∈ cb2.failures := by
    rw [hcb2, CircuitBreaker.record_failure_failures]
    simp
  have hlen : 3 ≤ ((cb2.failures.filter (fun t => t3 - t < cb2.failure_window)) ++ [t3]).length := by
    have hwin2 : cb2.failure_window = 60 := by
      rw [hcb2, CircuitBreaker.record_failure_window, hcb1, CircuitBreaker.record_failure_window, hw]
    have h1 : t1 ∈ cb2.failures.filter (fun t => t3 - t < cb2.failure_window) :=
      List.mem_filter.mpr ⟨hf2a, by rw [hwin2]; simp; linarith⟩
    have h2 : t2 ∈ cb2.failures.filter (fun t => t3 - t < cb2.failure_window) :=
      List.mem_filter.mpr ⟨hf2b, by rw [hwin2]; simp; linarith⟩
    by_cases heq : t1 = t2
    · -- t1 = t2: both copies survive the filter, so the filtered list still has ≥ 2 elements
      have hc : 2 ≤ (cb2.failures.filter (fun t => t3 - t < cb2.failure_window)).length := by
        have hcount : 2 ≤ cb2.failures.count t1 := by
          rw [hcb2, CircuitBreaker.record_failure_failures]
          have hm : t1 ∈ cb1.failures.filter (fun t => t2 - t < cb1.failure_window) := by
            have hwin1 : cb1.failure_window = 60 := by
              rw [hcb1, CircuitBreaker.record_failure_window, hw]
            exact List.mem_filter.mpr ⟨hf1, by rw [hwin1]; simp; linarith⟩
          have h1le : 1 ≤ (cb1.failures.filter (fun t => t2 - t < cb1.failure_window)).count t1 :=
            List.one_le_count_iff.mpr hm
          have : (([t2] : List Time).count t1) = 1 := by
            simp [List.count_singleton, heq]
          rw [List.count_append, this]
          omega
        have hcf : 2 ≤ (cb2.failures.filter (fun t => t3 - t < cb2.failure_window)).count t1 := by
          rw [List.count_filter]
          · simpa using hcount
          · rw [hwin2]; simp; linarith
        calc 2 ≤ (cb2.failures.filter (fun t => t3 - t < cb2.failure_window)).count t1 := hcf
        _ ≤ _ := List.count_le_length _ _
      simp only [List.length_append, List.length_singleton]
      omega
    · have hsub : [t1, t2].Nodup := by simp [heq]
      have hss : ∀ x ∈ [t1, t2], x ∈ cb2.failures.filter (fun t => t3 - t < cb2.failure_window) := by
        intro x hx
        rcases List.mem_cons.mp hx with rfl | hx
        · exact h1
        · rcases List.mem_cons.mp hx with rfl | hx
          · exact h2
          · cases hx
      have h2le : 2 ≤ (cb2.failures.filter (fun t => t3 - t < cb2.failure_window)).length := by
        have := (List.Nodup.subperm hsub hss).length_le
        simpa using this
      simp only [List.length_append, List.length_singleton]
      omega
  have hth2 : cb2.failure_threshold = 3 := by
    rw [hcb2, CircuitBreaker.record_failure_threshold, hcb1,
      CircuitBreaker.record_failure_threshold, hth]
  have hopen3 : cb3.circuit_opened_at = some t3 := by
    rw [hcb3]
    unfold CircuitBreaker.record_failure
    rw [if_pos]
    rw [hth2]
    exact hlen
  have hrec3 : cb3.recovery_time = 300 := by
    rw [hcb3, CircuitBreaker.record_failure_recovery, hcb2,
      CircuitBreaker.record_failure_recovery, hcb1, CircuitBreaker.record_failure_recovery, hr]
  refine ⟨hopen3, ?_, ?_, ?_⟩
  · intro t ht
    unfold CircuitBreaker.is_open
    rw [hopen3]
    simp only
    rw [if_neg (by rw [hrec3]; linarith)]
    exact ⟨rfl, rfl⟩
  · intro t ht
    unfold CircuitBreaker.is_open
    rw [hopen3]
    simp only
    rw [if_pos (by rw [hrec3]; linarith)]
    exact ⟨rfl, rfl, rfl⟩
  · intro cb'
    refine ⟨rfl, rfl, ?_⟩
    intro t
    unfold CircuitBreaker.is_open CircuitBreaker.record_success
    simp

/-- A breaker with the constructor's default configuration, after failures
recorded at 0, 10 and 20 seconds. -/
def breakerAfterThreeFailures : CircuitBreaker :=
  ((({} : CircuitBreaker).record_failure 0).record_failure 10).record_failure 20

/-- Concrete instance of `C3_circuit_breaker_window_and_recovery`: the default
breaker, failures at 0, 10 and 20 seconds, the circuit is open at 100 s and
closed again (history cleared) at 320 s. -/
theorem C3_witness :
    breakerAfterThreeFailures.circuit_opened_at = some 20
    ∧ (breakerAfterThreeFailures.is_open 100).1 = true
    ∧ (breakerAfterThreeFailures.is_open 320).1 = false := by
  have h := C3_circuit_breaker_window_and_recovery {} 0 10 20 rfl rfl rfl
    (by norm_num) (by norm_num) (by norm_num)
  exact ⟨h.1, (h.2.1 100 (by norm_num)).1, (h.2.2.1 320 (by norm_num)).1⟩

/-! ## TokenBucketRateLimiter (src/http_client.py, lines 42-104) -/

structure TokenBucketRateLimiter where
  rate : ℚ
  burst_size : ℕ
  tokens : ℚ
  last_update : Time
deriving DecidableEq

/-- `TokenBucketRateLimiter.__init__` (http_client.py 53-65); `now` is the
`time.monotonic()` read stored in `last_update`. -/
def TokenBucketRateLimiter.init (requests_per_second : ℚ) (burst_size : ℕ) (now : Time) :
    TokenBucketRateLimiter :=
  { rate := requests_per_second, burst_size := burst_size,
    tokens := (burst_size : ℚ), last_update := now }

/-- The refill executed at the top of each locked section of `acquire`
(http_client.py 84-88): `min(self.burst_size, self.tokens + elapsed * self.rate)`. -/
def TokenBucketRateLimiter.refillAmount (s : TokenBucketRateLimiter) (now : Time) : ℚ :=
  min (s.burst_size : ℚ) (s.tokens + (now - s.last_update) * s.rate)

/-- One locked section of `acquire` (http_client.py 80-96): refill, then either
consume a token (second component `none`) or report the computed wait time
`(1 - tokens) / rate`. -/
def TokenBucketRateLimiter.refillStep (s : TokenBucketRateLimiter) (now : Time) :
    TokenBucketRateLimiter × Option ℚ :=
  if 1 ≤ s.refillAmount now then
    ({ s with tokens := s.refillAmount now - 1, last_update := now }, none)
  else
    ({ s with tokens := s.refillAmount now, last_update := now },
      some ((1 - s.refillAmount now) / s.rate))

/-- The tail of one `acquire` iteration (http_client.py 91-104), after the
locked section returned `sw`: an available token means an immediate `True`;
otherwise the timeout check compares `checkNow + wait_time` against the
deadline, and on survival the loop sleeps `min(wait_time, 0.1)` and continues
as `cont`. -/
def acquireStepCont (sw : TokenBucketRateLimiter × Option ℚ) (checkNow deadline : Time)
    (cont : Option (Bool × TokenBucketRateLimiter × List ℚ)) :
    Option (Bool × TokenBucketRateLimiter × List ℚ) :=
  match sw with
  | (s1, none) => some (true, s1, [])
  | (s1, some wait) =>
    if checkNow + wait > deadline then some (false, s1, [])
    else
      match cont with
      | none => none
      | some (ok, s2, sleeps) => some (ok, s2, min wait (1/10) :: sleeps)

/-- The waiting loop of `acquire` (http_client.py 79-104).  `times` supplies, for
each iteration, the pair of `time.monotonic()` reads (inside the lock, then at
the timeout check); `none` means the supplied clock readings ran out with the
loop still running.  On termination it returns the result, the final limiter
state, and the list of sleep durations `min(wait_time, 0.1)` performed. -/
def TokenBucketRateLimiter.acquireLoop (s : TokenBucketRateLimiter) (deadline : Time) :
    List (Time × Time) → Option (Bool × TokenBucketRateLimiter × List ℚ)
  | [] => none
  | (now, checkNow) :: rest =>
    acquireStepCont (s.refillStep now) checkNow deadline
      ((s.refillStep now).1.acquireLoop deadline rest)

/-- `TokenBucketRateLimiter.acquire` (http_client.py 67-104): the deadline is
the `time.monotonic()` read at entry plus the timeout. -/
def TokenBucketRateLimiter.acquire (s : TokenBucketRateLimiter) (entry : Time) (timeout : Time)
    (times : List (Time × Time)) : Option (Bool × TokenBucketRateLimiter × List ℚ) :=
  s.acquireLoop (entry + timeout) times

/-- A sequence of locked acquire sections at the given clock readings: returns
the success flag of each section and the final state.  Both distinct `acquire`
calls and successive iterations of one call enter this section, so counting
successes over an arbitrary clock-reading sequence bounds the completion rate. -/
def TokenBucketRateLimiter.runSections (s : TokenBucketRateLimiter) :
    List Time → List Bool × TokenBucketRateLimiter
  | [] => ([], s)
  | now :: rest =>
    ((s.refillStep now).2.isNone :: ((s.refillStep now).1.runSections rest).1,
      ((s.refillStep now).1.runSections rest).2)

/-- Collects one `acquire` result `r` and continues with the remaining calls
(`cont`) from the returned state; a diverging call (`none`) ends the run. -/
def collectCall (r : Option (Bool × TokenBucketRateLimiter × List ℚ))
    (s0 : TokenBucketRateLimiter) (cont : TokenBucketRateLimiter → List Bool × TokenBucketRateLimiter) :
    List Bool × TokenBucketRateLimiter :=
  match r with
  | some (ok, s1, _) => (ok :: (cont s1).1, (cont s1).2)
  | none => ([], s0)

/-- `n` back-to-back `acquire` calls, each issued at instant `t0` with a
single loop iteration's clock readings also at `t0`. -/
def TokenBucketRateLimiter.immediateCalls (s : TokenBucketRateLimiter) (t0 : Time) :
    ℕ → List Bool × TokenBucketRateLimiter
  | 0 => ([], s)
  | n + 1 =>
    collectCall (s.acquire t0 30 [(t0, t0)]) s (fun s1 => s1.immediateCalls t0 n)

theorem refillStep_rate (s : TokenBucketRateLimiter) (now : Time) :
    ((s.refillStep now).1.rate = s.rate) ∧ ((s.refillStep now).1.burst_size = s.burst_size)
    ∧ ((s.refillStep now).1.last_update = now) := by
  unfold TokenBucketRateLimiter.refillStep
  split <;> exact ⟨rfl, rfl, rfl⟩

theorem refillStep_tokens_nonneg (s : TokenBucketRateLimiter) (now : Time)
    (h0 : 0 ≤ s.tokens) (hle : s.last_update ≤ now) (hr : 0 ≤ s.rate) :
    0 ≤ (s.refillStep now).1.tokens := by
  unfold TokenBucketRateLimiter.refillStep
  split
  · next h =>
    simp only
    linarith
  · next h =>
    simp only
    unfold TokenBucketRateLimiter.refillAmount
    have : 0 ≤ s.tokens + (now - s.last_update) * s.rate := by nlinarith
    exact le_min (by positivity) this

theorem refillStep_potential (s : TokenBucketRateLimiter) (now : Time) :
    (s.refillStep now).1.tokens + (if (s.refillStep now).2.isNone then 1 else 0)
      ≤ s.tokens + (now - s.last_update) * s.rate := by
  unfold TokenBucketRateLimiter.refillStep
  have hmin : s.refillAmount now ≤ s.tokens + (now - s.last_update) * s.rate :=
    min_le_right _ _
  split <;> simp <;> linarith

/-- Successes in any nondecreasing sequence of locked sections are bounded by
the current token balance plus the tokens accrued up to the last section. -/
theorem runSections_count_le (s : TokenBucketRateLimiter) (ts : List Time)
    (h0 : 0 ≤ s.tokens) (hr : 0 ≤ s.rate)
    (hchain : List.Chain (· ≤ ·) s.last_update ts) :
    ((s.runSections ts).1.count true : ℚ)
      ≤ s.tokens + (ts.getLast?.getD s.last_update - s.last_update) * s.rate := by
  induction ts generalizing s with
  | nil => simpa using h0
  | cons now rest ih =>
    rcases hchain with _ | ⟨hle, hchain'⟩
    have hrate : (s.refillStep now).1.rate = s.rate := (refillStep_rate s now).1
    have hlast : (s.refillStep now).1.last_update = now := (refillStep_rate s now).2.2
    have hnn : 0 ≤ (s.refillStep now).1.tokens := refillStep_tokens_nonneg s now h0 hle hr
    have hpot := refillStep_potential s now
    have ihh := ih (s.refillStep now).1 hnn (by rw [hrate]; exact hr) (by rw [hlast]; exact hchain')
    rw [hrate, hlast] at ihh
    unfold TokenBucketRateLimiter.runSections
    have hgl : (now :: rest).getLast?.getD s.last_update = rest.getLast?.getD now := by
      cases rest with
      | nil => simp
      | cons a l =>
        rw [List.getLast?_cons_cons]
        rcases hx : (a :: l).getLast? with _ | x
        · rw [List.getLast?_eq_none_iff] at hx
          cases hx
        · rfl
    rw [hgl]
    by_cases hs : (s.refillStep now).2.isNone
    · have h1 : List.count true ((s.refillStep now).2.isNone
            :: ((s.refillStep now).1.runSections rest).1)
          = List.count true ((s.refillStep now).1.runSections rest).1 + 1 := by
        simp [List.count_cons, hs]
      rw [h1]
      simp only [hs, if_true] at hpot
      push_cast
      linarith [ihh, hpot]
    · have h1 : List.count true ((s.refillStep now).2.isNone
            :: ((s.refillStep now).1.runSections rest).1)
          = List.count true ((s.refillStep now).1.runSections rest).1 := by
        simp [List.count_cons, hs]
      rw [h1]
      simp [hs] at hpot
      linarith [ihh, hpot]

theorem acquireLoop_nil (s : TokenBucketRateLimiter) (deadline : Time) :
    s.acquireLoop deadline [] = none := rfl

theorem acquireLoop_cons (s : TokenBucketRateLimiter) (deadline now checkNow : Time)
    (rest : List (Time × Time)) :
    s.acquireLoop deadline ((now, checkNow) :: rest)
      = acquireStepCont (s.refillStep now) checkNow deadline
          ((s.refillStep now).1.acquireLoop deadline rest) := rfl

theorem acquireLoop_sleeps_bounded (times : List (Time × Time)) :
    ∀ (s : TokenBucketRateLimiter) (deadline : Time)
      (res : Bool × TokenBucketRateLimiter × List ℚ),
      s.acquireLoop deadline times = some res → ∀ d ∈ res.2.2, d ≤ 1/10 := by
  induction times with
  | nil =>
    intro s deadline res h
    rw [acquireLoop_nil] at h
    cases h
  | cons p rest ih =>
    obtain ⟨now, checkNow⟩ := p
    intro s deadline res h
    rw [acquireLoop_cons] at h
    rcases hr : s.refillStep now with ⟨s1, w⟩
    rw [hr] at h
    cases w with
    | none =>
      dsimp only [acquireStepCont] at h
      simp only [Option.some.injEq] at h
      subst h
      intro d hd
      simp at hd
    | some wait =>
      dsimp only [acquireStepCont] at h
      split at h
      · simp only [Option.some.injEq] at h
        subst h
        intro d hd
        simp at hd
      · rcases hx : s1.acquireLoop deadline rest with _ | ⟨ok, s2, sleeps⟩ <;> rw [hx] at h
        · cases h
        · simp only [Option.some.injEq] at h
          subst h
          intro d hd
          rcases List.mem_cons.mp hd with rfl | hd
          · exact min_le_right _ _
          · exact ih s1 deadline (ok, s2, sleeps) hx d hd

theorem immediateCalls_succ (s : TokenBucketRateLimiter) (t0 : Time) (n : ℕ) :
    s.immediateCalls t0 (n + 1)
      = collectCall (s.acquire t0 30 [(t0, t0)]) s (fun s1 => s1.immediateCalls t0 n) := rfl

theorem immediateCalls_replicate (t0 : Time) :
    ∀ (n : ℕ) (s : TokenBucketRateLimiter),
      s.last_update = t0 → (n : ℚ) ≤ s.tokens → s.tokens ≤ (s.burst_size : ℚ) →
      (s.immediateCalls t0 n).1 = List.replicate n true := by
  intro n
  induction n with
  | zero => intro s _ _ _; rfl
  | succ k ih =>
    intro s hlu hn hb
    have hra : s.refillAmount t0 = s.tokens := by
      unfold TokenBucketRateLimiter.refillAmount
      rw [hlu, sub_self, zero_mul, add_zero]
      exact min_eq_right hb
    have h1 : (1 : ℚ) ≤ s.refillAmount t0 := by
      rw [hra]
      have : ((k + 1 : ℕ) : ℚ) = (k : ℚ) + 1 := by push_cast; ring
      rw [this] at hn
      have hk : (0 : ℚ) ≤ (k : ℚ) := Nat.cast_nonneg k
      linarith
    have hstep : s.refillStep t0
        = ({ s with tokens := s.tokens - 1, last_update := t0 }, none) := by
      unfold TokenBucketRateLimiter.refillStep
      rw [if_pos h1, hra]
    have hacq : s.acquire t0 30 [(t0, t0)]
        = some (true, { s with tokens := s.tokens - 1, last_update := t0 }, []) := by
      unfold TokenBucketRateLimiter.acquire
      rw [acquireLoop_cons, hstep]
      rfl
    rw [immediateCalls_succ, hacq]
    dsimp only [collectCall]
    simp only [List.replicate_succ, List.cons.injEq, true_and]
    apply ih
    · rfl
    · have : ((k + 1 : ℕ) : ℚ) = (k : ℚ) + 1 := by push_cast; ring
      rw [this] at hn
      simp only
      linarith
    · simp only
      have hb' : s.tokens - 1 ≤ s.tokens := by linarith
      exact le_trans hb' hb

/-- C5: a limiter starts with `tokens = burst`; every locked attempt first
refills to `min(burst, tokens + elapsed*rate)` and, when at least one token is
available, takes one and succeeds on that first iteration with no sleeping;
otherwise it computes the wait `(1 - tokens)/rate`, sleeps in increments of at
most 0.1 s, and returns `false` as soon as the projected completion time passes
the deadline (in particular whenever the deadline itself has passed).
Consequently `b` immediate acquires on a fresh limiter all return `true` on
their first iteration, and any nondecreasing schedule of attempts completes at
most `b + (u - t0)·r` acquisitions by time `u` — so `k` acquisitions past the
burst take at least `k/r` seconds. -/
theorem C5_token_bucket_acquire :
    (∀ (r : ℚ) (b : ℕ) (t0 : Time), (TokenBucketRateLimiter.init r b t0).tokens = (b : ℚ))
    ∧ (∀ (s : TokenBucketRateLimiter) (now : Time),
        (1 ≤ s.refillAmount now →
          s.refillStep now = ({ s with tokens := s.refillAmount now - 1, last_update := now }, none))
        ∧ (¬ 1 ≤ s.refillAmount now →
          s.refillStep now = ({ s with tokens := s.refillAmount now, last_update := now },
            some ((1 - s.refillAmount now) / s.rate))))
    ∧ (∀ (s : TokenBucketRateLimiter) (now checkNow deadline : Time)
          (rest : List (Time × Time)), 1 ≤ s.refillAmount now →
        s.acquireLoop deadline ((now, checkNow) :: rest)
          = some (true, (s.refillStep now).1, []))
    ∧ (∀ (s : TokenBucketRateLimiter) (now checkNow deadline : Time)
          (rest : List (Time × Time)), ¬ 1 ≤ s.refillAmount now →
        (checkNow + (1 - s.refillAmount now) / s.rate > deadline →
          s.acquireLoop deadline ((now, checkNow) :: rest)
            = some (false, (s.refillStep now).1, []))
        ∧ (0 < s.rate → deadline < checkNow →
          s.acquireLoop deadline ((now, checkNow) :: rest)
            = some (false, (s.refillStep now).1, [])))
    ∧ (∀ (times : List (Time × Time)) (s : TokenBucketRateLimiter) (deadline : Time)
          (res : Bool × TokenBucketRateLimiter × List ℚ),
        s.acquireLoop deadline times = some res → ∀ d ∈ res.2.2, d ≤ 1/10)
    ∧ (∀ (r : ℚ) (b : ℕ) (t0 : Time),
        ((TokenBucketRateLimiter.init r b t0).immediateCalls t0 b).1 = List.replicate b true)
    ∧ (∀ (r : ℚ), 0 ≤ r → ∀ (b : ℕ) (t0 : Time) (ts : List Time),
        List.Chain (· ≤ ·) t0 ts →
        (((TokenBucketRateLimiter.init r b t0).runSections ts).1.count true : ℚ)
          ≤ (b : ℚ) + (ts.getLast?.getD t0 - t0) * r) := by
  refine ⟨fun r b t0 => rfl, ?_, ?_, ?_, acquireLoop_sleeps_bounded, ?_, ?_⟩
  · intro s now
    constructor
    · intro h
      unfold TokenBucketRateLimiter.refillStep
      rw [if_pos h]
    · intro h
      unfold TokenBucketRateLimiter.refillStep
      rw [if_neg h]
  · intro s now checkNow deadline rest h
    have hstep : s.refillStep now
        = ({ s with tokens := s.refillAmount now - 1, last_update := now }, none) := by
      unfold TokenBucketRateLimiter.refillStep
      rw [if_pos h]
    rw [acquireLoop_cons, hstep]
    rfl
  · intro s now checkNow deadline rest h
    have hstep : s.refillStep now
        = ({ s with tokens := s.refillAmount now, last_update := now },
            some ((1 - s.refillAmount now) / s.rate)) := by
      unfold TokenBucketRateLimiter.refillStep
      rw [if_neg h]
    constructor
    · intro hpast
      rw [acquireLoop_cons, hstep]
      dsimp only [acquireStepCont]
      rw [if_pos hpast]
    · intro hrate hdl
      have hwaitpos : 0 < (1 - s.refillAmount now) / s.rate := by
        apply div_pos
        · linarith [not_le.mp h]
        · exact hrate
      have hpast : checkNow + (1 - s.refillAmount now) / s.rate > deadline := by linarith
      rw [acquireLoop_cons, hstep]
      dsimp only [acquireStepCont]
      rw [if_pos hpast]
  · intro r b t0
    apply immediateCalls_replicate
    · rfl
    · exact le_refl _
    · exact le_refl _
  · intro r hr b t0 ts hchain
    have := runSections_count_le (TokenBucketRateLimiter.init r b t0) ts
      (by simp [TokenBucketRateLimiter.init]) hr hchain
    simpa [TokenBucketRateLimiter.init] using this

/-- Concrete instance of `C5_token_bucket_acquire`: a limiter with rate 2 and
burst 3; three immediate acquires all succeed, an immediate success on a full
bucket, and a deadline-expired failure on an empty bucket. -/
theorem C5_witness :
    (TokenBucketRateLimiter.init 2 3 0).tokens = 3
    ∧ ((TokenBucketRateLimiter.init 2 3 0).immediateCalls 0 3).1 = List.replicate 3 true
    ∧ (TokenBucketRateLimiter.init 2 3 0).acquireLoop 30 [(0, 0)]
        = some (true, ((TokenBucketRateLimiter.init 2 3 0).refillStep 0).1, [])
    ∧ (({ rate := 2, burst_size := 3, tokens := 0, last_update := 0 } :
          TokenBucketRateLimiter).acquireLoop (-1) [(0, 0)]
        = some (false,
            (({ rate := 2, burst_size := 3, tokens := 0, last_update := 0 } :
              TokenBucketRateLimiter).refillStep 0).1, []))
    ∧ (((TokenBucketRateLimiter.init 2 3 0).runSections [0, 0, 0, 1]).1.count true : ℚ)
        ≤ (3 : ℚ) + (1 - 0) * 2 := by
  obtain ⟨h1, _, h3, h4, _, h6, h7⟩ := C5_token_bucket_acquire
  refine ⟨h1 2 3 0, h6 2 3 0, ?_, ?_, ?_⟩
  · exact h3 (TokenBucketRateLimiter.init 2 3 0) 0 0 30 []
      (by unfold TokenBucketRateLimiter.refillAmount TokenBucketRateLimiter.init; norm_num)
  · exact (h4 { rate := 2, burst_size := 3, tokens := 0, last_update := 0 } 0 0 (-1) []
      (by unfold TokenBucketRateLimiter.refillAmount; norm_num)).2
      (by norm_num) (by norm_num)
  · exact h7 2 (by norm_num) 3 0 [0, 0, 0, 1] (by norm_num [List.chain_cons])

/-! ## CredentialManager (src/credentials.py) -/

/-- `CREDENTIAL_REFRESH_COOLDOWN` (constants.py 105). -/
def CREDENTIAL_REFRESH_COOLDOWN : Time := 60

/-- `DEFAULT_POMS_API_KEY` (constants.py 132). -/
def DEFAULT_POMS_API_KEY : String := "ione7ahfij"

/-- `DEFAULT_POMS_API_SECRET` (constants.py 133). -/
def DEFAULT_POMS_API_SECRET : String := "aag9veesei"

/-- `Credentials` (credentials.py 40-52); `fetched_at` is kept in its
serialized ISO form, which is all the manager does with it. -/
structure Credentials where
  api_key : String
  api_secret : String
  fetched_at : String
  source : String
deriving DecidableEq

/-- The on-disk credential cache (`_cache_file`): the committed file and any
temporary `.tmp` sibling. -/
structure CredCacheFile where
  final : Option Credentials := none
  temp : Option Credentials := none
deriving DecidableEq

/-- Mutable state of `CredentialManager` (credentials.py 91-111). -/
structure CredentialManager where
  credentials : Option Credentials := none
  cache_file : CredCacheFile := {}
  refresh_in_progress : Bool := false
  last_refresh_attempt : Time := 0
deriving DecidableEq

/-- `CredentialManager._save_cache` (credentials.py 147-170): serialize to the
temporary file, then atomically rename it over the cache file. -/
def CredentialManager.save_cache (f : CredCacheFile) (creds : Credentials) : CredCacheFile :=
  { final := ({ f with temp := some creds } : CredCacheFile).temp, temp := none }

/-- `CredentialManager.get_credentials` (credentials.py 184-194). -/
def CredentialManager.get_credentials (m : CredentialManager) : String × String :=
  match m.credentials with
  | some c => (c.api_key, c.api_secret)
  | none => (DEFAULT_POMS_API_KEY, DEFAULT_POMS_API_SECRET)

/-- `CredentialManager.invalidate_and_refresh` (credentials.py 196-234).
`now` is the `time.monotonic()` read under the lock; `fetchResult` is the
outcome of `_fetch_fresh_credentials` (`none` models both a network error and
a failed extraction).  The third component reports whether the network fetch
was performed during the call. -/
def CredentialManager.invalidate_and_refresh (m : CredentialManager) (now : Time)
    (fetchResult : Option Credentials) : Bool × CredentialManager × Bool :=
  if now - m.last_refresh_attempt < CREDENTIAL_REFRESH_COOLDOWN then
    (m.credentials.isSome, m, false)
  else if m.refresh_in_progress then
    (m.credentials.isSome, m, false)
  else
    match fetchResult with
    | some new_creds =>
      (true,
        { m with credentials := some new_creds,
                 cache_file := CredentialManager.save_cache m.cache_file new_creds,
                 last_refresh_attempt := now,
                 refresh_in_progress := false },
        true)
    | none =>
      (m.credentials.isSome,
        { m with last_refresh_attempt := now, refresh_in_progress := false },
        true)

/-- C6: within the cooldown, or while a refresh is in flight, the call does no
network fetch and returns exactly whether a credential pair is loaded; outside
the cooldown a successful fetch replaces the credentials wholesale and
persists them with no temporary file left behind, and a failed fetch leaves
the credentials (and the key/secret pair in use) unchanged and returns whether
a pair is available. -/
theorem C6_invalidate_and_refresh_cooldown
    (m : CredentialManager) (now : Time) (fetch : Option Credentials) :
    (now - m.last_refresh_attempt < CREDENTIAL_REFRESH_COOLDOWN →
      m.invalidate_and_refresh now fetch = (m.credentials.isSome, m, false))
    ∧ (¬ now - m.last_refresh_attempt < CREDENTIAL_REFRESH_COOLDOWN →
        m.refresh_in_progress = true →
      m.invalidate_and_refresh now fetch = (m.credentials.isSome, m, false))
    ∧ (∀ c : Credentials, ¬ now - m.last_refresh_attempt < CREDENTIAL_REFRESH_COOLDOWN →
        m.refresh_in_progress = false → fetch = some c →
      (m.invalidate_and_refresh now fetch).1 = true
      ∧ (m.invalidate_and_refresh now fetch).2.1.credentials = some c
      ∧ (m.invalidate_and_refresh now fetch).2.1.cache_file.final = some c
      ∧ (m.invalidate_and_refresh now fetch).2.1.cache_file.temp = none
      ∧ (m.invalidate_and_refresh now fetch).2.2 = true)
    ∧ (¬ now - m.last_refresh_attempt < CREDENTIAL_REFRESH_COOLDOWN →
        m.refresh_in_progress = false → fetch = none →
      (m.invalidate_and_refresh now fetch).1 = m.credentials.isSome
      ∧ (m.invalidate_and_refresh now fetch).2.1.credentials = m.credentials
      ∧ (m.invalidate_and_refresh now fetch).2.1.get_credentials = m.get_credentials
      ∧ (m.invalidate_and_refresh now fetch).2.2 = true) := by
  refine ⟨?_, ?_, ?_, ?_⟩
  · intro h
    unfold CredentialManager.invalidate_and_refresh
    rw [if_pos h]
  · intro h hip
    unfold CredentialManager.invalidate_and_refresh
    rw [if_neg h, if_pos hip]
  · intro c h hip hf
    unfold CredentialManager.invalidate_and_refresh
    rw [if_neg h, hip, hf]
    exact ⟨rfl, rfl, rfl, rfl, rfl⟩
  · intro h hip hf
    unfold CredentialManager.invalidate_and_refresh
    rw [if_neg h, hip, hf]
    refine ⟨rfl, rfl, ?_, rfl⟩
    unfold CredentialManager.get_credentials
    rfl

/-- Concrete instance of `C6_invalidate_and_refresh_cooldown`: a manager whose
last attempt was 10 s ago skips the fetch; 70 s after the last attempt, a
successful fetch installs and persists the new pair, and a failed fetch keeps
the defaults in use and reports no credentials. -/
theorem C6_witness :
    (({ last_refresh_attempt := 0 } : CredentialManager).invalidate_and_refresh 10
        (some { api_key := "k", api_secret := "s", fetched_at := "", source := "x" })
      = (false, { last_refresh_attempt := 0 }, false))
    ∧ ((({ last_refresh_attempt := 0 } : CredentialManager).invalidate_and_refresh 70
        (some { api_key := "k", api_secret := "s", fetched_at := "", source := "x" })).2.1.credentials
      = some { api_key := "k", api_secret := "s", fetched_at := "", source := "x" })
    ∧ ((({ last_refresh_attempt := 0 } : CredentialManager).invalidate_and_refresh 70
        none).2.1.get_credentials = (DEFAULT_POMS_API_KEY, DEFAULT_POMS_API_SECRET)) := by
  have h10 := C6_invalidate_and_refresh_cooldown ({ last_refresh_attempt := 0 }) 10
    (some { api_key := "k", api_secret := "s", fetched_at := "", source := "x" })
  have h70 := C6_invalidate_and_refresh_cooldown ({ last_refresh_attempt := 0 }) 70
    (some { api_key := "k", api_secret := "s", fetched_at := "", source := "x" })
  have h70n := C6_invalidate_and_refresh_cooldown ({ last_refresh_attempt := 0 }) 70 none
  refine ⟨?_, ?_, ?_⟩
  · have := h10.1 (by unfold CREDENTIAL_REFRESH_COOLDOWN; norm_num)
    simpa using this
  · exact (h70.2.2.1 _ (by unfold CREDENTIAL_REFRESH_COOLDOWN; norm_num) rfl rfl).2.1
  · have := (h70n.2.2.2 (by unfold CREDENTIAL_REFRESH_COOLDOWN; norm_num) rfl rfl).2.2.1
    rw [this]
    rfl

/-! ## Python-string utilities

Cache keys, filesystem paths and titles are modelled as `List Char` so that
every operation on them is a plain structural recursion.  `pys` converts a
Lean string literal. -/

abbrev PyStr : Type := List Char

/-- Convert a literal to the `List Char` model of a Python string. -/
def pys (s : String) : PyStr := s.toList

/-- Python `pat in s` (substring containment). -/
def containsSub (pat : PyStr) : PyStr → Bool
  | [] => pat.isEmpty
  | c :: rest => pat.isPrefixOf (c :: rest) || containsSub pat rest

/-- Recursion core of `replaceSub`; the fuel (at least the string's length)
makes the recursion structural, so that it evaluates inside the kernel. -/
def replaceSubAux (pat rep : PyStr) : ℕ → PyStr → PyStr
  | 0, s => s
  | _ + 1, [] => []
  | n + 1, c :: rest =>
    if pat ≠ [] ∧ pat.isPrefixOf (c :: rest) then
      rep ++ replaceSubAux pat rep n ((c :: rest).drop pat.length)
    else
      c :: replaceSubAux pat rep n rest

/-- Python `s.replace(pat, rep)` for a non-empty `pat`: replace non-overlapping
occurrences left to right.  (The code never calls `replace` with an empty
pattern.) -/
def replaceSub (pat rep : PyStr) (s : PyStr) : PyStr :=
  replaceSubAux pat rep s.length s

/-- Recursion core of `splitOnSub`, fuelled like `replaceSubAux`. -/
def splitOnSubAux (pat : PyStr) : ℕ → PyStr → List PyStr
  | 0, s => [s]
  | _ + 1, [] => [[]]
  | n + 1, c :: rest =>
    if pat ≠ [] ∧ pat.isPrefixOf (c :: rest) then
      [] :: splitOnSubAux pat n ((c :: rest).drop pat.length)
    else
      match splitOnSubAux pat n rest with
      | [] => [[c]]
      | w :: ws => (c :: w) :: ws

/-- Python `s.split(pat)` for a non-empty separator `pat`. -/
def splitOnSub (pat : PyStr) (s : PyStr) : List PyStr :=
  splitOnSubAux pat s.length s

/-- The last `/`-separated component of a path (`PurePath.name`). -/
def pathName (p : PyStr) : PyStr := (splitOnSub (pys "/") p).getLastD []

/-- The name of a path's parent directory (`path.parent.name`). -/
def pathParentName (p : PyStr) : PyStr := ((splitOnSub (pys "/") p).dropLast).getLastD []

/-- `PurePath.stem` restricted to the `.json` files the cache globs. -/
def pathStem (p : PyStr) : PyStr :=
  if (pys ".json").isSuffixOf (pathName p) then
    (pathName p).take ((pathName p).length - 5)
  else pathName p

/-! ## FileCache (src/cache.py)

The filesystem visible to one `FileCache` is a list of `(path, contents)`
pairs, in directory-iteration order; `file_sizes` models `stat().st_size`.
`hashlib.sha256(key).hexdigest()` is an opaque parameter `sha256hex`. -/

/-- `DEFAULT_CACHE_TTL_FOUND` (constants.py 83), seconds. -/
def DEFAULT_CACHE_TTL_FOUND : Time := 30 * 24 * 60 * 60

/-- `DEFAULT_CACHE_TTL_NOT_FOUND` (constants.py 84), seconds. -/
def DEFAULT_CACHE_TTL_NOT_FOUND : Time := 7 * 24 * 60 * 60

/-- `MAX_CACHE_SIZE_MB` (constants.py 85). -/
def MAX_CACHE_SIZE_MB : ℕ := 500

/-- `MAX_CACHE_ENTRIES` (constants.py 86). -/
def MAX_CACHE_ENTRIES : ℕ := 10000

/-- `CacheEntry` (cache.py 46-69); the `images` list carries no behaviour in
any cache operation and is omitted. -/
structure CacheEntry where
  title : PyStr
  year : Option Int := none
  description : Option PyStr := none
  url : Option PyStr := none
  imdb_id : Option PyStr := none
  vpro_id : Option PyStr := none
  media_type : PyStr := pys "film"
  status : PyStr
  fetched_at : PyStr := []
  last_accessed : PyStr := []
  lookup_method : Option PyStr := none
  discovered_imdb : Option PyStr := none
  content_rating : Option PyStr := none
  vpro_rating : Option Int := none
deriving DecidableEq

/-- `CacheEntry.is_expired` (cache.py 71-95).  `datetime.fromisoformat` is the
parameter `parseIso`, returning the parsed timestamp in seconds (`none` models
`ValueError`); `now` is `datetime.now(timezone.utc)` in the same scale. -/
def CacheEntry.is_expired (parseIso : PyStr → Option Time) (now : Time) (e : CacheEntry) : Bool :=
  if e.fetched_at = [] then true
  else
    match parseIso (replaceSub (pys "Z") (pys "+00:00") e.fetched_at) with
    | none => true
    | some fetched =>
      if e.status = pys "not_found" then
        decide (now - fetched > DEFAULT_CACHE_TTL_NOT_FOUND)
      else
        decide (now - fetched > DEFAULT_CACHE_TTL_FOUND)

/-- Contents of one cache file: a completely serialized entry, or bytes that
`json.load` rejects (an interrupted or corrupted write). -/
inductive FileData where
  | entry (e : CacheEntry)
  | corrupt
deriving DecidableEq

/-- State of one `FileCache` (cache.py 242-257): the files on disk, the
in-memory access-time index `_access_times`, and the `stat` sizes. -/
structure FileCache where
  files : List (PyStr × FileData) := []
  access_times : List (PyStr × Time) := []
  file_sizes : PyStr → ℕ := fun _ => 0

/-- Look a path up in the filesystem. -/
def fsGet (files : List (PyStr × FileData)) (p : PyStr) : Option FileData :=
  (files.find? (fun kv => kv.1 = p)).map (fun kv => kv.2)

/-- Create or overwrite the file at `p`. -/
def fsSet (files : List (PyStr × FileData)) (p : PyStr) (d : FileData) :
    List (PyStr × FileData) :=
  if (files.find? (fun kv => kv.1 = p)).isSome then
    files.map (fun kv => if kv.1 = p then (p, d) else kv)
  else
    files ++ [(p, d)]

/-- `unlink(missing_ok=True)`. -/
def fsRemove (files : List (PyStr × FileData)) (p : PyStr) : List (PyStr × FileData) :=
  files.filter (fun kv => ¬ kv.1 = p)

/-- `self._access_times[path] = t` (dict assignment). -/
def setAccessTime (ats : List (PyStr × Time)) (p : PyStr) (t : Time) : List (PyStr × Time) :=
  if (ats.find? (fun kv => kv.1 = p)).isSome then
    ats.map (fun kv => if kv.1 = p then (p, t) else kv)
  else
    ats ++ [(p, t)]

/-- `c if c.isalnum() or c in '-_' else '_'` (cache.py 280-283); `isalnum` is
modelled by ASCII alphanumerics, which covers the sanitized cache keys. -/
def sanitizeChar (c : Char) : Char :=
  if c.isAlphanum || c = '-' || c = '_' then c else '_'

/-- `FileCache._get_cache_path` (cache.py 259-285) up to the extension:
`<dir>/<hash[:2]>/<safe_key[:80]>_<hash[:12]>`. -/
def cache_path_base (sha256hex : PyStr → PyStr) (cache_dir : PyStr) (key : PyStr) : PyStr :=
  cache_dir ++ pys "/" ++ (sha256hex key).take 2 ++ pys "/"
    ++ (key.map sanitizeChar).take 80 ++ pys "_" ++ (sha256hex key).take 12

/-- `FileCache._get_cache_path` (cache.py 259-285). -/
def get_cache_path (sha256hex : PyStr → PyStr) (cache_dir : PyStr) (key : PyStr) : PyStr :=
  cache_path_base sha256hex cache_dir key ++ pys ".json"

/-- `FileCache._delete_file` (cache.py 535-542): unlink and drop from the
access-time index. -/
def FileCache.delete_file (fc : FileCache) (p : PyStr) : FileCache :=
  { fc with files := fsRemove fc.files p,
            access_times := fc.access_times.filter (fun kv => ¬ kv.1 = p) }

/-- `FileCache._touch` (cache.py 526-533). -/
def FileCache.touch (fc : FileCache) (p : PyStr) (now : Time) : FileCache :=
  { fc with access_times := setAccessTime fc.access_times p now }

/-- The on-disk total computed by `_maybe_evict` (cache.py 554-559): sizes of
the tracked paths that still exist. -/
def FileCache.trackedSize (fc : FileCache) : ℕ :=
  (((fc.access_times.map Prod.fst).filter (fun p => (fsGet fc.files p).isSome)).map
    fc.file_sizes).sum

/-- The entries `_maybe_evict` selects (cache.py 565-570): the index sorted by
access time ascending, first `max(1, N // 10)`. -/
def FileCache.evictionChoice (fc : FileCache) : List (PyStr × Time) :=
  (fc.access_times.mergeSort (fun a b => a.2 ≤ b.2)).take
    (max 1 (fc.access_times.length / 10))

/-- `FileCache._maybe_evict` (cache.py 544-575).  Also returns the evicted
paths. -/
def FileCache.maybe_evict (fc : FileCache) : FileCache × List PyStr :=
  if fc.access_times.length < MAX_CACHE_ENTRIES
      ∧ fc.trackedSize < MAX_CACHE_SIZE_MB * 1024 * 1024 then
    (fc, [])
  else
    (fc.evictionChoice.foldl (fun s kv => s.delete_file kv.1) fc,
      fc.evictionChoice.map Prod.fst)

/-- Which operation of the write's `try` block raises `OSError`, if any. -/
inductive WriteFault where
  | noFault
  | atOpen
  | atDump
  | atRename
deriving DecidableEq

/-- The body of `FileCache.write` after the eviction pass (cache.py 489-524):
stamp the timestamps, serialize to `<base>.tmp` (`with_suffix('.tmp')`),
atomically rename onto `<base>.json`, record the access time.  On a fault the
handler unlinks the temporary file and the write returns `False`. -/
def FileCache.write_after_evict (sha256hex : PyStr → PyStr) (cache_dir : PyStr)
    (fc : FileCache) (key : PyStr) (entry : CacheEntry) (now : Time) (nowIso : PyStr)
    (fault : WriteFault) : FileCache × Bool :=
  let cache_path := get_cache_path sha256hex cache_dir key
  let temp_path := cache_path_base sha256hex cache_dir key ++ pys ".tmp"
  let stamped : CacheEntry :=
    { entry with last_accessed := nowIso,
                 fetched_at := if entry.fetched_at = [] then nowIso else entry.fetched_at }
  match fault with
  | .atOpen =>
    -- `open` failed: nothing was created; the handler unlinks any stale temp file
    ({ fc with files := fsRemove fc.files temp_path }, false)
  | .atDump =>
    -- `json.dump` failed part-way: the partial temp file is created, then unlinked
    ({ fc with files := fsRemove (fsSet fc.files temp_path .corrupt) temp_path }, false)
  | .atRename =>
    -- the temp file was fully written, `replace` failed, the temp file is unlinked
    ({ fc with files := fsRemove (fsSet fc.files temp_path (.entry stamped)) temp_path }, false)
  | .noFault =>
    ({ fc with
        files := fsSet (fsRemove (fsSet fc.files temp_path (.entry stamped)) temp_path)
                   cache_path (.entry stamped),
        access_times := setAccessTime fc.access_times cache_path now }, true)

/-- `FileCache.write` (cache.py 473-524): the eviction check runs first, then
the atomic write. -/
def FileCache.write (sha256hex : PyStr → PyStr) (cache_dir : PyStr) (fc : FileCache)
    (key : PyStr) (entry : CacheEntry) (now : Time) (nowIso : PyStr) (fault : WriteFault) :
    FileCache × Bool :=
  FileCache.write_after_evict sha256hex cache_dir (fc.maybe_evict).1 key entry now nowIso fault

/-- `FileCache._has_type_suffix` (cache.py 340-342). -/
def has_type_suffix (key : PyStr) : Bool :=
  (pys "-m").isSuffixOf key || (pys "-s").isSuffixOf key

/-- `FileCache._has_none_imdb` (cache.py 344-346). -/
def has_none_imdb (key : PyStr) : Bool :=
  containsSub (pys "-none-") key || (pys "-none").isSuffixOf key

/-- Python `key.rsplit("-", 2)`. -/
def rsplitHyphen2 (key : PyStr) : List PyStr :=
  if (splitOnSub (pys "-") key).length ≤ 3 then splitOnSub (pys "-") key
  else
    List.intercalate (pys "-")
        ((splitOnSub (pys "-") key).take ((splitOnSub (pys "-") key).length - 2))
      :: (splitOnSub (pys "-") key).drop ((splitOnSub (pys "-") key).length - 2)

/-- `FileCache._extract_key_components` (cache.py 317-338). -/
def extract_key_components (key : PyStr) : Option PyStr × Option PyStr :=
  if (rsplitHyphen2 key).length < 2 then (none, none)
  else if (rsplitHyphen2 key).getLastD [] = pys "m" ∨ (rsplitHyphen2 key).getLastD [] = pys "s" then
    (some ((rsplitHyphen2 key).headD []), some ((rsplitHyphen2 key).getLastD []))
  else if containsSub (pys "-none") key then
    (some (List.intercalate (pys "-none") ((splitOnSub (pys "-none") key).dropLast)),
      some (pys "m"))
  else (none, none)

/-- `FileCache._find_by_title_year` (cache.py 348-381): scan the shard
directories (two-character parent names) for the first `.json` file whose stem
starts with the title/year prefix and mentions the type suffix. -/
def find_by_title_year (files : List (PyStr × FileData)) (key : PyStr) : PyStr :=
  match extract_key_components key with
  | (none, _) => pys "/nonexistent"
  | (some ty, ts) =>
    match (files.filter (fun kv =>
        (pys ".json").isSuffixOf kv.1
        && decide ((pathParentName kv.1).length = 2)
        && ty.isPrefixOf (pathStem kv.1)
        && containsSub (pys "-" ++ ts.getD [] ++ pys "_") (pathStem kv.1))).head? with
    | some kv => kv.1
    | none => pys "/nonexistent"

/-- `FileCache._resolve_cache_path` (cache.py 391-423).  The second component
reports whether the title/year directory scan was performed. -/
def resolve_cache_path (sha256hex : PyStr → PyStr) (cache_dir : PyStr)
    (files : List (PyStr × FileData)) (key : PyStr) : Option PyStr × Bool :=
  if (fsGet files (get_cache_path sha256hex cache_dir key)).isSome then
    (some (get_cache_path sha256hex cache_dir key), false)
  else if ¬ has_type_suffix key
      ∧ (fsGet files (get_cache_path sha256hex cache_dir (key ++ pys "-m"))).isSome then
    (some (get_cache_path sha256hex cache_dir (key ++ pys "-m")), false)
  else if has_none_imdb key then
    (if (fsGet files (find_by_title_year files key)).isSome then
      some (find_by_title_year files key)
     else none, true)
  else (none, false)

/-- `FileCache.read` (cache.py 425-471): resolve the path, load the entry
(deleting undecodable files), enforce the TTL (deleting expired entries),
refresh the access time on a hit. -/
def FileCache.read (sha256hex : PyStr → PyStr) (cache_dir : PyStr)
    (parseIso : PyStr → Option Time) (fc : FileCache) (key : PyStr) (now : Time) :
    Option CacheEntry × FileCache :=
  match (resolve_cache_path sha256hex cache_dir fc.files key).1 with
  | none => (none, fc)
  | some cache_path =>
    match fsGet fc.files cache_path with
    | none => (none, fc)
    | some .corrupt => (none, fc.delete_file cache_path)
    | some (.entry e) =>
      if e.is_expired parseIso now then (none, fc.delete_file cache_path)
      else (some e, fc.touch cache_path now)

theorem fsGet_filter_preserved (p : PyStr) (pred : PyStr × FileData → Bool) :
    ∀ l : List (PyStr × FileData), (∀ kv ∈ l, kv.1 = p → pred kv = true) →
      fsGet (l.filter pred) p = fsGet l p := by
  intro l
  induction l with
  | nil => intro _; rfl
  | cons kv l ih =>
    intro h
    by_cases hk : kv.1 = p
    · have hp : pred kv = true := h kv (List.mem_cons_self kv l) hk
      unfold fsGet
      rw [List.filter_cons_of_pos hp, List.find?_cons_of_pos _ (by simpa using hk),
        List.find?_cons_of_pos _ (by simpa using hk)]
    · by_cases hp : pred kv = true
      · unfold fsGet
        rw [List.filter_cons_of_pos hp, List.find?_cons_of_neg _ (by simpa using hk),
          List.find?_cons_of_neg _ (by simpa using hk)]
        have := ih (fun kv2 hkv2 => h kv2 (List.mem_cons_of_mem kv hkv2))
        unfold fsGet at this
        exact this
      · unfold fsGet
        rw [List.filter_cons_of_neg (by simpa using hp),
          List.find?_cons_of_neg _ (by simpa using hk)]
        have := ih (fun kv2 hkv2 => h kv2 (List.mem_cons_of_mem kv hkv2))
        unfold fsGet at this
        exact this

theorem fsGet_fsRemove_self (l : List (PyStr × FileData)) (p : PyStr) :
    fsGet (fsRemove l p) p = none := by
  unfold fsGet fsRemove
  rw [List.find?_eq_none.mpr]
  · rfl
  · intro kv hkv
    have := (List.mem_filter.mp hkv).2
    simpa using this

theorem fsGet_fsRemove_ne (l : List (PyStr × FileData)) (p q : PyStr) (h : p ≠ q) :
    fsGet (fsRemove l q) p = fsGet l p := by
  unfold fsRemove
  apply fsGet_filter_preserved
  intro kv _ hkv
  simp [hkv, h]

theorem fsGet_fsSet_self (l : List (PyStr × FileData)) (p : PyStr) (d : FileData) :
    fsGet (fsSet l p d) p = some d := by
  unfold fsSet
  split
  · next hpres =>
    rcases Option.isSome_iff_exists.mp hpres with ⟨kv0, hkv0⟩
    clear hpres
    induction l with
    | nil => simp [fsGet] at hkv0 ⊢
    | cons kv l ih =>
      by_cases hk : kv.1 = p
      · unfold fsGet
        rw [List.map_cons, if_pos hk, List.find?_cons_of_pos _ (by simp)]
        rfl
      · unfold fsGet
        rw [List.map_cons, if_neg hk, List.find?_cons_of_neg _ (by simpa using hk)]
        rw [List.find?_cons_of_neg _ (by simpa using hk)] at hkv0
        exact ih hkv0
  · unfold fsGet
    rw [List.find?_append]
    next habs =>
    rw [Option.not_isSome_iff_eq_none] at habs
    rw [habs]
    simp

theorem fsGet_map_set_ne (p q : PyStr) (d : FileData) (h : p ≠ q) :
    ∀ l : List (PyStr × FileData),
      fsGet (l.map (fun kv => if kv.1 = q then (q, d) else kv)) p = fsGet l p := by
  intro l
  induction l with
  | nil => rfl
  | cons kv l ih =>
    by_cases hk : kv.1 = q
    · unfold fsGet
      rw [List.map_cons, if_pos hk]
      rw [List.find?_cons_of_neg _ (by simp; exact fun hc => (h hc.symm).elim),
        List.find?_cons_of_neg _ (by simp [hk]; exact fun hc => (h hc.symm).elim)]
      exact ih
    · unfold fsGet
      rw [List.map_cons, if_neg hk]
      by_cases hkp : kv.1 = p
      · rw [List.find?_cons_of_pos _ (by simpa using hkp),
          List.find?_cons_of_pos _ (by simpa using hkp)]
      · rw [List.find?_cons_of_neg _ (by simpa using hkp),
          List.find?_cons_of_neg _ (by simpa using hkp)]
        exact ih

theorem fsGet_fsSet_ne (l : List (PyStr × FileData)) (p q : PyStr) (d : FileData)
    (h : p ≠ q) : fsGet (fsSet l q d) p = fsGet l p := by
  unfold fsSet
  split
  · exact fsGet_map_set_ne p q d h l
  · unfold fsGet
    rw [List.find?_append]
    have hx : List.find? (fun kv => decide (kv.1 = p)) [(q, d)] = none := by
      simp
      exact fun hc => (h hc.symm).elim
    rw [hx]
    simp

theorem foldl_delete_files (l : List (PyStr × Time)) :
    ∀ fc : FileCache,
      ((l.foldl (fun s kv => s.delete_file kv.1) fc).files
        = fc.files.filter (fun kv2 => l.all (fun q => ¬ kv2.1 = q.1)))
      ∧ ((l.foldl (fun s kv => s.delete_file kv.1) fc).access_times
        = fc.access_times.filter (fun kv2 => l.all (fun q => ¬ kv2.1 = q.1)))
      ∧ (l.foldl (fun s kv => s.delete_file kv.1) fc).file_sizes = fc.file_sizes := by
  induction l with
  | nil =>
    intro fc
    refine ⟨?_, ?_, rfl⟩ <;> simp
  | cons q l ih =>
    intro fc
    have hstep : (q :: l).foldl (fun s kv => s.delete_file kv.1) fc
        = l.foldl (fun s kv => s.delete_file kv.1) (fc.delete_file q.1) := rfl
    rw [hstep]
    obtain ⟨h1, h2, h3⟩ := ih (fc.delete_file q.1)
    refine ⟨?_, ?_, h3⟩
    · rw [h1]
      show (fsRemove fc.files q.1).filter _ = _
      unfold fsRemove
      rw [List.filter_filter]
      apply List.filter_congr
      intro kv2 _
      simp [List.all_cons, Bool.and_comm]
    · rw [h2]
      show (fc.access_times.filter _).filter _ = _
      rw [List.filter_filter]
      apply List.filter_congr
      intro kv2 _
      simp [List.all_cons, Bool.and_comm]

theorem maybe_evict_no_trigger (fc : FileCache)
    (h : fc.access_times.length < MAX_CACHE_ENTRIES
        ∧ fc.trackedSize < MAX_CACHE_SIZE_MB * 1024 * 1024) :
    fc.maybe_evict = (fc, []) := by
  unfold FileCache.maybe_evict
  rw [if_pos h]

theorem maybe_evict_trigger (fc : FileCache)
    (h : ¬ (fc.access_times.length < MAX_CACHE_ENTRIES
        ∧ fc.trackedSize < MAX_CACHE_SIZE_MB * 1024 * 1024)) :
    fc.maybe_evict = (fc.evictionChoice.foldl (fun s kv => s.delete_file kv.1) fc,
      fc.evictionChoice.map Prod.fst) := by
  unfold FileCache.maybe_evict
  rw [if_neg h]

theorem trigger_access_times_ne_nil (fc : FileCache)
    (h : ¬ (fc.access_times.length < MAX_CACHE_ENTRIES
        ∧ fc.trackedSize < MAX_CACHE_SIZE_MB * 1024 * 1024)) :
    1 ≤ fc.access_times.length := by
  by_contra hn
  have hzero : fc.access_times.length = 0 := by omega
  have hnil : fc.access_times = [] := List.length_eq_zero.mp hzero
  apply h
  constructor
  · rw [hzero]; unfold MAX_CACHE_ENTRIES; omega
  · unfold FileCache.trackedSize
    rw [hnil]
    simp [MAX_CACHE_SIZE_MB]

theorem evictionChoice_length (fc : FileCache) (hne : 1 ≤ fc.access_times.length) :
    fc.evictionChoice.length = max 1 (fc.access_times.length / 10) := by
  unfold FileCache.evictionChoice
  rw [List.length_take]
  have hperm : (fc.access_times.mergeSort (fun a b => a.2 ≤ b.2)).length
      = fc.access_times.length := (List.mergeSort_perm _ _).length_eq
  rw [hperm]
  have : max 1 (fc.access_times.length / 10) ≤ fc.access_times.length := by
    have := Nat.div_le_self fc.access_times.length 10
    omega
  omega

theorem evictionChoice_subset (fc : FileCache) :
    ∀ kv ∈ fc.evictionChoice, kv ∈ fc.access_times := by
  intro kv hkv
  unfold FileCache.evictionChoice at hkv
  have h1 : kv ∈ fc.access_times.mergeSort (fun a b => a.2 ≤ b.2) :=
    List.take_subset _ _ hkv
  exact (List.mergeSort_perm fc.access_times _).subset h1

theorem evictionChoice_fst_nodup (fc : FileCache)
    (hnodup : (fc.access_times.map Prod.fst).Nodup) :
    (fc.evictionChoice.map Prod.fst).Nodup := by
  have hperm : ((fc.access_times.mergeSort (fun a b => a.2 ≤ b.2)).map Prod.fst).Perm
      (fc.access_times.map Prod.fst) := (List.mergeSort_perm fc.access_times _).map _
  have hsortednodup : ((fc.access_times.mergeSort (fun a b => a.2 ≤ b.2)).map Prod.fst).Nodup :=
    (hperm.nodup_iff).mpr hnodup
  unfold FileCache.evictionChoice
  rw [List.map_take]
  exact hsortednodup.sublist (List.take_sublist _ _)

theorem evictionChoice_oldest (fc : FileCache)
    (htimes : (fc.access_times.map Prod.snd).Pairwise (· ≠ ·)) :
    ∀ pq ∈ fc.evictionChoice, ∀ kv ∈ fc.access_times,
      kv.1 ∉ fc.evictionChoice.map Prod.fst → pq.2 < kv.2 := by
  intro pq hpq kv hkv hnot
  unfold FileCache.evictionChoice at hpq hnot
  have htrans : ∀ a b c : PyStr × Time,
      (decide (a.2 ≤ b.2)) = true → (decide (b.2 ≤ c.2)) = true → (decide (a.2 ≤ c.2)) = true := by
    intro a b c hab hbc
    simp only [decide_eq_true_eq] at *
    exact le_trans hab hbc
  have htotal : ∀ a b : PyStr × Time,
      ((decide (a.2 ≤ b.2)) || (decide (b.2 ≤ a.2))) = true := by
    intro a b
    simp only [Bool.or_eq_true, decide_eq_true_eq]
    exact le_total _ _
  have hsorted := List.sorted_mergeSort htrans htotal fc.access_times
  have hperm := List.mergeSort_perm fc.access_times (fun a b => a.2 ≤ b.2)
  set sorted := fc.access_times.mergeSort (fun a b => a.2 ≤ b.2) with hsortdef
  set k := max 1 (fc.access_times.length / 10) with hk
  have hsplit : sorted.take k ++ sorted.drop k = sorted := List.take_append_drop k sorted
  -- kv is not among the evicted pairs, so it sits in the dropped part
  have hkvsorted : kv ∈ sorted := hperm.mem_iff.mpr hkv
  have hpq' : pq ∈ sorted.take k := hpq
  have hnot' : kv.1 ∉ (sorted.take k).map Prod.fst := hnot
  have hkvdrop : kv ∈ sorted.drop k := by
    have hm : kv ∈ sorted.take k ++ sorted.drop k := by rw [hsplit]; exact hkvsorted
    rcases List.mem_append.mp hm with hin | hin
    · exact absurd (List.mem_map_of_mem Prod.fst hin) hnot'
    · exact hin
  have hsorted2 : (sorted.take k ++ sorted.drop k).Pairwise
      (fun a b => decide (a.2 ≤ b.2) = true) := by rw [hsplit]; exact hsorted
  have hple : pq.2 ≤ kv.2 := by
    have := (List.pairwise_append.mp hsorted2).2.2 pq hpq' kv hkvdrop
    simpa using this
  have hpairsne : ((sorted.take k).map Prod.snd ++ (sorted.drop k).map Prod.snd).Pairwise
      (· ≠ ·) := by
    rw [← List.map_append, hsplit]
    exact ((hperm.map Prod.snd).pairwise_iff (by intro a b hab; exact hab.symm)).mpr htimes
  have hne : pq.2 ≠ kv.2 :=
    (List.pairwise_append.mp hpairsne).2.2 pq.2 (List.mem_map_of_mem Prod.snd hpq')
      kv.2 (List.mem_map_of_mem Prod.snd hkvdrop)
  exact lt_of_le_of_ne hple hne

/-- C1: `FileCache.write` runs the eviction pass before writing.  When the
index tracks fewer than the maximum entries and the tracked size is under the
byte ceiling, nothing is deleted.  Otherwise exactly `max(1, ⌊N/10⌋)` distinct
tracked entries are deleted — precisely the ones with the smallest last-access
times — the index keeps exactly the surviving entries, and the path of the
(fresh) key being written is never among the deleted ones. -/
theorem C1_write_evicts_oldest_tenth
    (sha256hex : PyStr → PyStr) (cache_dir : PyStr) (fc : FileCache) (key : PyStr)
    (entry : CacheEntry) (now : Time) (nowIso : PyStr) (fault : WriteFault)
    (hnodup : (fc.access_times.map Prod.fst).Nodup)
    (htimes : (fc.access_times.map Prod.snd).Pairwise (· ≠ ·))
    (hfresh : get_cache_path sha256hex cache_dir key ∉ fc.access_times.map Prod.fst) :
    FileCache.write sha256hex cache_dir fc key entry now nowIso fault
      = FileCache.write_after_evict sha256hex cache_dir (fc.maybe_evict).1 key entry now
          nowIso fault
    ∧ (fc.access_times.length < MAX_CACHE_ENTRIES
        ∧ fc.trackedSize < MAX_CACHE_SIZE_MB * 1024 * 1024 →
        fc.maybe_evict = (fc, []))
    ∧ (¬ (fc.access_times.length < MAX_CACHE_ENTRIES
        ∧ fc.trackedSize < MAX_CACHE_SIZE_MB * 1024 * 1024) →
        (fc.maybe_evict).2.length = max 1 (fc.access_times.length / 10)
        ∧ (fc.maybe_evict).2.Nodup
        ∧ (∀ p ∈ (fc.maybe_evict).2, p ∈ fc.access_times.map Prod.fst)
        ∧ (∀ p ∈ (fc.maybe_evict).2, fsGet (fc.maybe_evict).1.files p = none)
        ∧ ((fc.maybe_evict).1.access_times
            = fc.access_times.filter (fun kv => decide (kv.1 ∉ (fc.maybe_evict).2)))
        ∧ (∀ pq ∈ fc.evictionChoice, ∀ kv ∈ fc.access_times,
            kv.1 ∉ (fc.maybe_evict).2 → pq.2 < kv.2)
        ∧ get_cache_path sha256hex cache_dir key ∉ (fc.maybe_evict).2) := by
  refine ⟨rfl, maybe_evict_no_trigger fc, ?_⟩
  intro htrig
  rw [maybe_evict_trigger fc htrig]
  simp only
  obtain ⟨hfiles, hats, _⟩ := foldl_delete_files fc.evictionChoice fc
  have hsub : ∀ p ∈ fc.evictionChoice.map Prod.fst, p ∈ fc.access_times.map Prod.fst := by
    intro p hp
    obtain ⟨q, hq, hqe⟩ := List.mem_map.mp hp
    exact hqe ▸ List.mem_map_of_mem Prod.fst (evictionChoice_subset fc q hq)
  refine ⟨?_, evictionChoice_fst_nodup fc hnodup, hsub, ?_, ?_, ?_, ?_⟩
  · rw [List.length_map]
    exact evictionChoice_length fc (trigger_access_times_ne_nil fc htrig)
  · intro p hp
    obtain ⟨q0, hq0, hq0e⟩ := List.mem_map.mp hp
    rw [hfiles]
    unfold fsGet
    rw [List.find?_eq_none.mpr]
    · rfl
    · intro kv hkv
      have hpred := (List.mem_filter.mp hkv).2
      rw [List.all_eq_true] at hpred
      have := hpred q0 hq0
      simp only [decide_eq_true_eq] at this
      simp only [decide_eq_true_eq]
      rw [hq0e] at this
      exact this
  · rw [hats]
    apply List.filter_congr
    intro kv _
    by_cases hm : kv.1 ∈ fc.evictionChoice.map Prod.fst
    · obtain ⟨q, hq, hqe⟩ := List.mem_map.mp hm
      have hall : fc.evictionChoice.all (fun q => decide (¬ kv.1 = q.1)) = false := by
        rw [List.all_eq_false]
        exact ⟨q, hq, by simp [hqe]⟩
      rw [hall]
      simp [hm]
    · have hall : fc.evictionChoice.all (fun q => decide (¬ kv.1 = q.1)) = true := by
        rw [List.all_eq_true]
        intro r hr
        simp only [decide_eq_true_eq]
        intro hc
        exact hm (List.mem_map.mpr ⟨r, hr, hc.symm⟩)
      rw [hall]
      simp [hm]
  · exact evictionChoice_oldest fc htimes
  · intro hc
    exact hfresh (hsub _ hc)

/-- A minimal cache entry used by the concrete instances. -/
def sampleEntry : CacheEntry := { title := pys "x", status := pys "found" }

/-- A stand-in for `hashlib.sha256(...).hexdigest()` in concrete instances. -/
def sampleSha : PyStr → PyStr := fun _ => pys "0123456789abcdef"

/-- A two-entry cache over the 500 MB ceiling (each file is 300 MiB). -/
def sampleFullCache : FileCache :=
  { files := [(pys "cache/aa/a_x.json", .entry sampleEntry),
              (pys "cache/aa/b_x.json", .entry sampleEntry)],
    access_times := [(pys "cache/aa/a_x.json", 1), (pys "cache/aa/b_x.json", 2)],
    file_sizes := fun _ => 300 * 1024 * 1024 }

/-- Concrete instance of `C1_write_evicts_oldest_tenth`: a two-entry cache over
the size ceiling evicts exactly `max(1, ⌊2/10⌋) = 1` entry, deletes its file,
never the key being written; an empty cache under both limits evicts
nothing. -/
theorem C1_witness :
    (sampleFullCache.maybe_evict).2.length = max 1 (sampleFullCache.access_times.length / 10)
    ∧ get_cache_path sampleSha (pys "cache") (pys "vpro-k") ∉ (sampleFullCache.maybe_evict).2
    ∧ (∀ p ∈ (sampleFullCache.maybe_evict).2, fsGet (sampleFullCache.maybe_evict).1.files p = none)
    ∧ ({ file_sizes := fun _ => 0 } : FileCache).maybe_evict
        = ({ file_sizes := fun _ => 0 }, []) := by
  have h := C1_write_evicts_oldest_tenth sampleSha (pys "cache") sampleFullCache (pys "vpro-k")
    sampleEntry 0 [] .noFault (by decide) (by decide) (by decide)
  have htrig : ¬ (sampleFullCache.access_times.length < MAX_CACHE_ENTRIES
      ∧ sampleFullCache.trackedSize < MAX_CACHE_SIZE_MB * 1024 * 1024) := by decide
  obtain ⟨-, -, h3⟩ := h
  obtain ⟨hlen, -, -, hdel, -, -, hnot⟩ := h3 htrig
  refine ⟨hlen, hnot, hdel, ?_⟩
  have h0 := C1_write_evicts_oldest_tenth sampleSha (pys "cache")
    ({ file_sizes := fun _ => 0 } : FileCache) (pys "vpro-k")
    sampleEntry 0 [] .noFault (by decide) (by decide) (by decide)
  exact h0.2.1 (by decide)

theorem temp_ne_json (base : PyStr) : base ++ pys ".tmp" ≠ base ++ pys ".json" := by
  intro h
  have h4 : (pys ".tmp").length = 4 := by decide
  have h5 : (pys ".json").length = 5 := by decide
  have hl := congrArg List.length h
  rw [List.length_append, List.length_append, h4, h5] at hl
  omega

theorem maybe_evict_files_preserved (fc : FileCache) (p : PyStr)
    (hp : p ∉ (fc.maybe_evict).2) :
    fsGet (fc.maybe_evict).1.files p = fsGet fc.files p := by
  by_cases htrig : fc.access_times.length < MAX_CACHE_ENTRIES
      ∧ fc.trackedSize < MAX_CACHE_SIZE_MB * 1024 * 1024
  · rw [maybe_evict_no_trigger fc htrig]
  · rw [maybe_evict_trigger fc htrig] at hp ⊢
    simp only at hp ⊢
    rw [(foldl_delete_files _ fc).1]
    apply fsGet_filter_preserved
    intro kv _ hkv
    rw [List.all_eq_true]
    intro q hq
    simp only [decide_eq_true_eq]
    rw [hkv]
    intro hc
    exact hp (List.mem_map.mpr ⟨q, hq, hc.symm⟩)

/-- C2 (amended): provided the eviction pass at the start of the call did not
delete the key's own file (in particular whenever the cache is within its
limits, or the key is new), a write that hits an `OSError` at any step of the
serialize-to-temp / atomic-rename sequence returns `False`, leaves the entry
previously stored under the key (or its absence) unchanged, and removes the
temporary file; a fault-free write returns `True` and installs the
timestamped entry; and under every fault the file visible at the final path
is either the previous content or the completely serialized new entry —
never a partial write. -/
theorem C2_write_atomic
    (sha256hex : PyStr → PyStr) (cache_dir : PyStr) (fc : FileCache) (key : PyStr)
    (entry : CacheEntry) (now : Time) (nowIso : PyStr) (fault : WriteFault)
    (hkeep : get_cache_path sha256hex cache_dir key ∉ (fc.maybe_evict).2) :
    (fault ≠ .noFault →
      (FileCache.write sha256hex cache_dir fc key entry now nowIso fault).2 = false
      ∧ fsGet (FileCache.write sha256hex cache_dir fc key entry now nowIso fault).1.files
          (get_cache_path sha256hex cache_dir key)
        = fsGet fc.files (get_cache_path sha256hex cache_dir key)
      ∧ fsGet (FileCache.write sha256hex cache_dir fc key entry now nowIso fault).1.files
          (cache_path_base sha256hex cache_dir key ++ pys ".tmp") = none)
    ∧ (fault = .noFault →
      (FileCache.write sha256hex cache_dir fc key entry now nowIso fault).2 = true
      ∧ fsGet (FileCache.write sha256hex cache_dir fc key entry now nowIso fault).1.files
          (get_cache_path sha256hex cache_dir key)
        = some (.entry { entry with
                           last_accessed := nowIso,
                           fetched_at := if entry.fetched_at = [] then nowIso
                             else entry.fetched_at })
      ∧ fsGet (FileCache.write sha256hex cache_dir fc key entry now nowIso fault).1.files
          (cache_path_base sha256hex cache_dir key ++ pys ".tmp") = none)
    ∧ (fsGet (FileCache.write sha256hex cache_dir fc key entry now nowIso fault).1.files
          (get_cache_path sha256hex cache_dir key)
        = fsGet fc.files (get_cache_path sha256hex cache_dir key)
      ∨ fsGet (FileCache.write sha256hex cache_dir fc key entry now nowIso fault).1.files
          (get_cache_path sha256hex cache_dir key)
        = some (.entry { entry with
                           last_accessed := nowIso,
                           fetched_at := if entry.fetched_at = [] then nowIso
                             else entry.fetched_at })) := by
  have hne : cache_path_base sha256hex cache_dir key ++ pys ".tmp"
      ≠ get_cache_path sha256hex cache_dir key := temp_ne_json _
  have hne' : get_cache_path sha256hex cache_dir key
      ≠ cache_path_base sha256hex cache_dir key ++ pys ".tmp" := hne.symm
  have hpres := maybe_evict_files_preserved fc (get_cache_path sha256hex cache_dir key) hkeep
  unfold FileCache.write FileCache.write_after_evict
  cases fault with
  | atOpen =>
    dsimp only
    refine ⟨?_, ?_, ?_⟩
    · intro _
      refine ⟨rfl, ?_, ?_⟩
      · rw [fsGet_fsRemove_ne _ _ _ hne', hpres]
      · exact fsGet_fsRemove_self _ _
    · intro hc
      cases hc
    · left
      rw [fsGet_fsRemove_ne _ _ _ hne', hpres]
  | atDump =>
    dsimp only
    refine ⟨?_, ?_, ?_⟩
    · intro _
      refine ⟨rfl, ?_, ?_⟩
      · rw [fsGet_fsRemove_ne _ _ _ hne', fsGet_fsSet_ne _ _ _ _ hne', hpres]
      · exact fsGet_fsRemove_self _ _
    · intro hc
      cases hc
    · left
      rw [fsGet_fsRemove_ne _ _ _ hne', fsGet_fsSet_ne _ _ _ _ hne', hpres]
  | atRename =>
    dsimp only
    refine ⟨?_, ?_, ?_⟩
    · intro _
      refine ⟨rfl, ?_, ?_⟩
      · rw [fsGet_fsRemove_ne _ _ _ hne', fsGet_fsSet_ne _ _ _ _ hne', hpres]
      · exact fsGet_fsRemove_self _ _
    · intro hc
      cases hc
    · left
      rw [fsGet_fsRemove_ne _ _ _ hne', fsGet_fsSet_ne _ _ _ _ hne', hpres]
  | noFault =>
    dsimp only
    refine ⟨?_, ?_, ?_⟩
    · intro hc
      exact absurd rfl hc
    · intro _
      refine ⟨rfl, ?_, ?_⟩
      · rw [fsGet_fsSet_self]
      · rw [fsGet_fsSet_ne _ _ _ _ hne]
        exact fsGet_fsRemove_self _ _
    · right
      rw [fsGet_fsSet_self]

/-- A one-entry cache over the 500 MB ceiling whose only tracked file is the
cache path of the key `vpro-k` itself. -/
def sampleSelfCache : FileCache :=
  { files := [(get_cache_path sampleSha (pys "cache") (pys "vpro-k"), .entry sampleEntry)],
    access_times := [(get_cache_path sampleSha (pys "cache") (pys "vpro-k"), 1)],
    file_sizes := fun _ => 524288000 }

/-- Counterexample to C2 as stated: rewriting `vpro-k` in `sampleSelfCache`
with a serialization failure returns `False` and leaves the key absent — the
eviction pass that `write` runs first already deleted the previous entry, so
a failed write does not always leave the prior entry intact. -/
theorem C2_counterexample :
    (FileCache.write sampleSha (pys "cache") sampleSelfCache (pys "vpro-k") sampleEntry 2
        (pys "t2") .atDump).2 = false
    ∧ fsGet sampleSelfCache.files (get_cache_path sampleSha (pys "cache") (pys "vpro-k"))
        = some (.entry sampleEntry)
    ∧ fsGet (FileCache.write sampleSha (pys "cache") sampleSelfCache (pys "vpro-k") sampleEntry 2
          (pys "t2") .atDump).1.files (get_cache_path sampleSha (pys "cache") (pys "vpro-k"))
        = none := by
  have hms : sampleSelfCache.access_times.mergeSort (fun a b => decide (a.2 ≤ b.2))
      = sampleSelfCache.access_times :=
    List.perm_singleton.mp (List.mergeSort_perm _ _)
  have hchoice : sampleSelfCache.evictionChoice = sampleSelfCache.access_times := by
    unfold FileCache.evictionChoice
    rw [hms]
    decide
  have hev := maybe_evict_trigger sampleSelfCache (by decide)
  rw [hchoice] at hev
  refine ⟨?_, by decide, ?_⟩
  · unfold FileCache.write
    rw [hev]
    decide
  · unfold FileCache.write
    rw [hev]
    decide

/-- Concrete instance of `C2_write_atomic`: on a cache within its limits, a
failed write leaves the stored entry intact and removes the temp file, and a
successful write installs the stamped entry. -/
theorem C2_witness :
    (FileCache.write sampleSha (pys "cache")
        ({ files := [(get_cache_path sampleSha (pys "cache") (pys "vpro-k"), .entry sampleEntry)],
           access_times := [(get_cache_path sampleSha (pys "cache") (pys "vpro-k"), 1)],
           file_sizes := fun _ => 7 } : FileCache)
        (pys "vpro-k") sampleEntry 2 (pys "t2") .atDump).2 = false
    ∧ fsGet (FileCache.write sampleSha (pys "cache")
        ({ files := [(get_cache_path sampleSha (pys "cache") (pys "vpro-k"), .entry sampleEntry)],
           access_times := [(get_cache_path sampleSha (pys "cache") (pys "vpro-k"), 1)],
           file_sizes := fun _ => 7 } : FileCache)
        (pys "vpro-k") sampleEntry 2 (pys "t2") .atDump).1.files
        (get_cache_path sampleSha (pys "cache") (pys "vpro-k"))
      = some (.entry sampleEntry) := by
  have h := C2_write_atomic sampleSha (pys "cache")
    ({ files := [(get_cache_path sampleSha (pys "cache") (pys "vpro-k"), .entry sampleEntry)],
       access_times := [(get_cache_path sampleSha (pys "cache") (pys "vpro-k"), 1)],
       file_sizes := fun _ => 7 } : FileCache)
    (pys "vpro-k") sampleEntry 2 (pys "t2") .atDump (by decide)
  obtain ⟨hf, -, -⟩ := h
  obtain ⟨h1, h2, -⟩ := hf (by intro hc; cases hc)
  refine ⟨h1, ?_⟩
  rw [h2]
  decide

/-- C7: read-path key resolution tries the exact key first, then (only when
the key lacks a `-m`/`-s` type suffix) the key with the default `-m` suffix,
and performs the title/year-prefix directory scan exactly when the key carries
the `none` secondary-identifier sentinel and both preceding lookups missed;
when the scan runs, its result is the `_find_by_title_year` match. -/
theorem C7_resolve_cache_path_order (sha256hex : PyStr → PyStr) (cache_dir : PyStr)
    (files : List (PyStr × FileData)) (key : PyStr) :
    ((fsGet files (get_cache_path sha256hex cache_dir key)).isSome →
      resolve_cache_path sha256hex cache_dir files key
        = (some (get_cache_path sha256hex cache_dir key), false))
    ∧ (¬ (fsGet files (get_cache_path sha256hex cache_dir key)).isSome →
        has_type_suffix key = false →
        (fsGet files (get_cache_path sha256hex cache_dir (key ++ pys "-m"))).isSome →
        resolve_cache_path sha256hex cache_dir files key
          = (some (get_cache_path sha256hex cache_dir (key ++ pys "-m")), false))
    ∧ ((resolve_cache_path sha256hex cache_dir files key).2 = true ↔
        has_none_imdb key = true
        ∧ ¬ (fsGet files (get_cache_path sha256hex cache_dir key)).isSome
        ∧ (has_type_suffix key = true
            ∨ ¬ (fsGet files (get_cache_path sha256hex cache_dir (key ++ pys "-m"))).isSome))
    ∧ ((resolve_cache_path sha256hex cache_dir files key).2 = true →
        (resolve_cache_path sha256hex cache_dir files key).1
          = (if (fsGet files (find_by_title_year files key)).isSome then
              some (find_by_title_year files key)
             else none)) := by
  by_cases h1 : (fsGet files (get_cache_path sha256hex cache_dir key)).isSome
  · have hres : resolve_cache_path sha256hex cache_dir files key
        = (some (get_cache_path sha256hex cache_dir key), false) := by
      unfold resolve_cache_path
      rw [if_pos h1]
    refine ⟨fun _ => hres, fun hc _ _ => absurd h1 hc, ?_, ?_⟩
    · rw [hres]
      simp only
      constructor
      · intro hc
        cases hc
      · rintro ⟨-, hc, -⟩
        exact absurd h1 hc
    · rw [hres]
      intro hc
      cases hc
  · by_cases h2 : ¬ has_type_suffix key
        ∧ (fsGet files (get_cache_path sha256hex cache_dir (key ++ pys "-m"))).isSome
    · have hres : resolve_cache_path sha256hex cache_dir files key
          = (some (get_cache_path sha256hex cache_dir (key ++ pys "-m")), false) := by
        unfold resolve_cache_path
        rw [if_neg h1, if_pos h2]
      refine ⟨fun hc => absurd hc h1, fun _ _ _ => hres, ?_, ?_⟩
      · rw [hres]
        simp only
        constructor
        · intro hc
          cases hc
        · rintro ⟨-, -, hc | hc⟩
          · rw [hc] at h2
            exact absurd rfl h2.1
          · exact absurd h2.2 hc
      · rw [hres]
        intro hc
        cases hc
    · by_cases h3 : has_none_imdb key
      · have hres : resolve_cache_path sha256hex cache_dir files key
            = (if (fsGet files (find_by_title_year files key)).isSome then
                some (find_by_title_year files key)
              else none, true) := by
          unfold resolve_cache_path
          rw [if_neg h1, if_neg h2, if_pos h3]
        refine ⟨fun hc => absurd hc h1, ?_, ?_, fun _ => by rw [hres]⟩
        · intro _ hts hvar
          exact absurd ⟨by simp [hts], hvar⟩ h2
        · rw [hres]
          simp only
          constructor
          · intro _
            refine ⟨h3, h1, ?_⟩
            by_cases hts : has_type_suffix key
            · exact Or.inl hts
            · right
              intro hvar
              exact h2 ⟨hts, hvar⟩
          · intro _
            trivial
      · have hres : resolve_cache_path sha256hex cache_dir files key = (none, false) := by
          unfold resolve_cache_path
          rw [if_neg h1, if_neg h2, if_neg h3]
        refine ⟨fun hc => absurd hc h1, ?_, ?_, ?_⟩
        · intro _ hts hvar
          exact absurd ⟨by simp [hts], hvar⟩ h2
        · rw [hres]
          simp only
          constructor
          · intro hc
            cases hc
          · rintro ⟨hc, -, -⟩
            exact absurd hc h3
        · rw [hres]
          intro hc
          cases hc

/-- Concrete instance of `C7_resolve_cache_path_order` on the key
`vpro-die-hard-1988-none-m`: when the exact file exists the resolver returns
it without scanning (despite the `none` sentinel); when only a file cached
under a real IMDB id exists, the resolver misses twice and the scan finds it. -/
theorem C7_witness :
    resolve_cache_path sampleSha (pys "cache")
        [(get_cache_path sampleSha (pys "cache") (pys "vpro-die-hard-1988-none-m"),
          .entry sampleEntry)]
        (pys "vpro-die-hard-1988-none-m")
      = (some (get_cache_path sampleSha (pys "cache") (pys "vpro-die-hard-1988-none-m")), false)
    ∧ resolve_cache_path sampleSha (pys "cache")
        [(pys "cache/ab/vpro-die-hard-1988-tt0095016-m_abcdef.json", .entry sampleEntry)]
        (pys "vpro-die-hard-1988-none-m")
      = (some (pys "cache/ab/vpro-die-hard-1988-tt0095016-m_abcdef.json"), true) := by
  constructor
  · exact (C7_resolve_cache_path_order sampleSha (pys "cache")
      [(get_cache_path sampleSha (pys "cache") (pys "vpro-die-hard-1988-none-m"),
        .entry sampleEntry)]
      (pys "vpro-die-hard-1988-none-m")).1 (by decide)
  · have h := (C7_resolve_cache_path_order sampleSha (pys "cache")
      [(pys "cache/ab/vpro-die-hard-1988-tt0095016-m_abcdef.json", .entry sampleEntry)]
      (pys "vpro-die-hard-1988-none-m")).2.2.2
    have hscan : (resolve_cache_path sampleSha (pys "cache")
        [(pys "cache/ab/vpro-die-hard-1988-tt0095016-m_abcdef.json", .entry sampleEntry)]
        (pys "vpro-die-hard-1988-none-m")).2 = true := by decide
    have h1 := h hscan
    have : (resolve_cache_path sampleSha (pys "cache")
        [(pys "cache/ab/vpro-die-hard-1988-tt0095016-m_abcdef.json", .entry sampleEntry)]
        (pys "vpro-die-hard-1988-none-m")).1
        = some (pys "cache/ab/vpro-die-hard-1988-tt0095016-m_abcdef.json") := by
      rw [h1]
      decide
    exact Prod.ext this hscan

/-- C10: an entry whose `fetched_at` is empty, or which
`datetime.fromisoformat` rejects, is reported expired whatever its status;
`FileCache.read` then deletes the entry's file and returns a miss instead of
returning the entry or failing. -/
theorem C10_invalid_timestamp_is_expired
    (parseIso : PyStr → Option Time) (now : Time) (e : CacheEntry) :
    (e.fetched_at = [] → e.is_expired parseIso now = true)
    ∧ (parseIso (replaceSub (pys "Z") (pys "+00:00") e.fetched_at) = none →
        e.is_expired parseIso now = true)
    ∧ (∀ (sha256hex : PyStr → PyStr) (cache_dir : PyStr) (fc : FileCache) (key p : PyStr),
        (resolve_cache_path sha256hex cache_dir fc.files key).1 = some p →
        fsGet fc.files p = some (.entry e) →
        (e.fetched_at = []
          ∨ parseIso (replaceSub (pys "Z") (pys "+00:00") e.fetched_at) = none) →
        FileCache.read sha256hex cache_dir parseIso fc key now = (none, fc.delete_file p)
        ∧ fsGet (fc.delete_file p).files p = none) := by
  have hempty : e.fetched_at = [] → e.is_expired parseIso now = true := by
    intro h
    unfold CacheEntry.is_expired
    rw [if_pos h]
  have hbad : parseIso (replaceSub (pys "Z") (pys "+00:00") e.fetched_at) = none →
      e.is_expired parseIso now = true := by
    intro h
    unfold CacheEntry.is_expired
    by_cases hf : e.fetched_at = []
    · rw [if_pos hf]
    · rw [if_neg hf, h]
  refine ⟨hempty, hbad, ?_⟩
  intro sha256hex cache_dir fc key p hres hget hinvalid
  have hexp : e.is_expired parseIso now = true := by
    rcases hinvalid with h | h
    · exact hempty h
    · exact hbad h
  constructor
  · unfold FileCache.read
    rw [hres]
    dsimp only
    rw [hget]
    dsimp only
    rw [hexp]
    simp
  · exact fsGet_fsRemove_self _ _

/-- Concrete instance of `C10_invalid_timestamp_is_expired`: reading a cached
entry whose `fetched_at` does not parse deletes the file and reports a miss. -/
theorem C10_witness :
    (FileCache.read sampleSha (pys "cache") (fun _ => none)
        ({ files := [(get_cache_path sampleSha (pys "cache") (pys "vpro-k"),
            .entry { title := pys "x", status := pys "found", fetched_at := pys "garbage" })],
           access_times := [], file_sizes := fun _ => 0 } : FileCache)
        (pys "vpro-k") 0).1 = none
    ∧ fsGet (FileCache.read sampleSha (pys "cache") (fun _ => none)
        ({ files := [(get_cache_path sampleSha (pys "cache") (pys "vpro-k"),
            .entry { title := pys "x", status := pys "found", fetched_at := pys "garbage" })],
           access_times := [], file_sizes := fun _ => 0 } : FileCache)
        (pys "vpro-k") 0).2.files (get_cache_path sampleSha (pys "cache") (pys "vpro-k"))
      = none := by
  have h := (C10_invalid_timestamp_is_expired (fun _ => none) 0
      { title := pys "x", status := pys "found", fetched_at := pys "garbage" }).2.2
    sampleSha (pys "cache")
    ({ files := [(get_cache_path sampleSha (pys "cache") (pys "vpro-k"),
        .entry { title := pys "x", status := pys "found", fetched_at := pys "garbage" })],
       access_times := [], file_sizes := fun _ => 0 } : FileCache)
    (pys "vpro-k") (get_cache_path sampleSha (pys "cache") (pys "vpro-k"))
    (by decide) (by decide) (Or.inr rfl)
  refine ⟨?_, ?_⟩
  · rw [h.1]
  · rw [h.1]
    exact h.2

/-! ## Text utilities (src/text_utils.py)

The normalisation pipeline is embedded character-faithfully over `PyStr`.
The Unicode data the Python standard library supplies (`unicodedata.normalize`
for NFKC/NFD, `str.lower`, the `Mn` category, the `\w` word class) is modelled
by finite tables covering the repertoire these titles use: ASCII, the common
Latin accented letters, and representative compatibility characters.  The
explicit dash/quote replacements are taken verbatim from the source
(`normalize_unicode`, text_utils.py 23-54); in particular line 51 of the
source, through quote mojibake, replaces the literal substring
`, "').replace(` by an apostrophe, and line 50 replaces `"` by itself. -/

/-- The double-quote character, `U+0022`. -/
def dquote : Char := Char.ofNat 34

/-- The apostrophe character, `U+0027`. -/
def apostrophe : Char := Char.ofNat 39

/-- The dash variants replaced by `-` (text_utils.py 45). -/
def dashChars : PyStr :=
  ['‐', '‑', '‒', '–', '—', '―', '−',
   '﹘', '﹣', '－']

/-- The pattern string of the `replace` on text_utils.py line 51:
`, "').replace(`. -/
def line51pat : PyStr :=
  [',', ' ', dquote, apostrophe, dquote, ')', '.', 'r', 'e', 'p', 'l', 'a', 'c', 'e', '(']

/-- NFKC compatibility mappings (modelled fragment). -/
def nfkcTable : List (Char × PyStr) :=
  [('ﬁ', ['f', 'i']), ('ﬂ', ['f', 'l']),
   ('Ａ', ['A']), ('ａ', ['a']),
   ('½', ['1', '⁄', '2'])]

/-- `str.lower` single-character mappings (ASCII plus modelled accents). -/
def lowerTable : List (Char × Char) :=
  [('A', 'a'), ('B', 'b'), ('C', 'c'), ('D', 'd'), ('E', 'e'), ('F', 'f'),
   ('G', 'g'), ('H', 'h'), ('I', 'i'), ('J', 'j'), ('K', 'k'), ('L', 'l'),
   ('M', 'm'), ('N', 'n'), ('O', 'o'), ('P', 'p'), ('Q', 'q'), ('R', 'r'),
   ('S', 's'), ('T', 't'), ('U', 'u'), ('V', 'v'), ('W', 'w'), ('X', 'x'),
   ('Y', 'y'), ('Z', 'z'),
   ('À', 'à'), ('Á', 'á'), ('È', 'è'),
   ('É', 'é'), ('Ï', 'ï'), ('Ö', 'ö'),
   ('Ü', 'ü'), ('Ç', 'ç')]

/-- NFD canonical decompositions (modelled fragment): accented Latin letters
into base letter plus combining mark. -/
def nfdTable : List (Char × PyStr) :=
  [('à', ['a', '̀']), ('á', ['a', '́']),
   ('è', ['e', '̀']), ('é', ['e', '́']),
   ('ï', ['i', '̈']), ('ö', ['o', '̈']),
   ('ü', ['u', '̈']), ('ç', ['c', '̧']),
   ('À', ['A', '̀']), ('Á', ['A', '́']),
   ('È', ['E', '̀']), ('É', ['E', '́']),
   ('Ï', ['I', '̈']), ('Ö', ['O', '̈']),
   ('Ü', ['U', '̈']), ('Ç', ['C', '̧'])]

/-- Combining marks (category `Mn`, modelled fragment). -/
def mnChars : PyStr := ['̀', '́', '̈', '̧']

def nfkcChar (c : Char) : PyStr := (nfkcTable.lookup c).getD [c]

def nfdChar (c : Char) : PyStr := (nfdTable.lookup c).getD [c]

def pyLower (c : Char) : Char := (lowerTable.lookup c).getD c

def isMn (c : Char) : Bool := mnChars.contains c

/-- Python's `\w` class on the modelled repertoire: ASCII alphanumerics,
underscore, and the modelled non-ASCII alphanumeric characters. -/
def isWordChar (c : Char) : Bool :=
  decide ('a' ≤ c ∧ c ≤ 'z') || decide ('A' ≤ c ∧ c ≤ 'Z')
    || decide ('0' ≤ c ∧ c ≤ '9') || decide (c = '_')
    || (['à', 'á', 'è', 'é', 'ï', 'ö', 'ü',
         'ç', 'À', 'Á', 'È', 'É', 'Ï', 'Ö',
         'Ü', 'Ç', 'ﬁ', 'ﬂ', 'Ａ', 'ａ',
         '½'] : PyStr).contains c

/-- Python whitespace (`\s`, `str.split`), ASCII fragment. -/
def isSpaceChar (c : Char) : Bool :=
  ([' ', '\t', '\n', '\u000b', '\u000c', '\r'] : PyStr).contains c

/-- Recursion core of `str.split()`; fuelled structural recursion. -/
def splitWsAux : ℕ → PyStr → List PyStr
  | 0, _ => []
  | n + 1, s =>
    match s.dropWhile isSpaceChar with
    | [] => []
    | c :: rest =>
      ((c :: rest).takeWhile (fun x => ¬ isSpaceChar x))
        :: splitWsAux n ((c :: rest).dropWhile (fun x => ¬ isSpaceChar x))

/-- Python `s.split()`: split on whitespace runs, dropping empty pieces. -/
def splitWs (s : PyStr) : List PyStr := splitWsAux s.length s

/-- Python `' '.join(ws)`. -/
def joinWords : List PyStr → PyStr
  | [] => []
  | [w] => w
  | w :: r :: rest => w ++ ' ' :: joinWords (r :: rest)

/-- `' '.join(text.split())` (text_utils.py 86). -/
def collapse (s : PyStr) : PyStr := joinWords (splitWs s)

/-- `normalize_unicode` (text_utils.py 23-54): NFKC, dash canonicalisation,
and the literal quote replacements of lines 50-52. -/
def normalize_unicode (s : PyStr) : PyStr :=
  if s = [] then []
  else
    ((replaceSub line51pat [apostrophe]
        (((dashChars.foldl (fun t dash => t.map (fun c => if c = dash then '-' else c))
            (s.flatMap nfkcChar)).map
          (fun c => if c = dquote then dquote else c)).map
          (fun c => if c = dquote then dquote else c))).map
      (fun c => if c = '«' then dquote else c)).map
      (fun c => if c = '»' then dquote else c)

/-- `normalize_for_comparison` (text_utils.py 57-88): `normalize_unicode`,
lower-case, NFD, strip combining marks, drop `[^\w\s]`, collapse
whitespace. -/
def normalize_for_comparison (s : PyStr) : PyStr :=
  if s = [] then []
  else
    collapse (((((normalize_unicode s).map pyLower).flatMap nfdChar).filter
        (fun c => ¬ isMn c)).filter
      (fun c => isWordChar c || isSpaceChar c))

/-- `titles_match` (text_utils.py 132-143). -/
def titles_match (t1 t2 : PyStr) : Bool :=
  decide (normalize_for_comparison t1 = normalize_for_comparison t2)

/-- `title_similarity` (text_utils.py 146-166): Jaccard similarity of the
normalised word sets (sets are modelled by deduplicated lists). -/
def title_similarity (t1 t2 : PyStr) : ℚ :=
  if (splitWs (normalize_for_comparison t1)).dedup = []
      ∨ (splitWs (normalize_for_comparison t2)).dedup = [] then 0
  else
    (((splitWs (normalize_for_comparison t1)).dedup.filter
        (fun w => w ∈ (splitWs (normalize_for_comparison t2)).dedup)).length : ℚ)
      / ((((splitWs (normalize_for_comparison t1)).dedup
          ++ (splitWs (normalize_for_comparison t2)).dedup.filter
            (fun w => w ∉ (splitWs (normalize_for_comparison t1)).dedup)).length : ℚ))

theorem lookup_eq_none_of_forall_ne {β : Type} (l : List (Char × β)) (c : Char)
    (h : ∀ kv ∈ l, c ≠ kv.1) : l.lookup c = none := by
  induction l with
  | nil => rfl
  | cons kv l ih =>
    obtain ⟨k, b⟩ := kv
    rw [List.lookup_cons]
    have hck : (c == k) = false := by
      have := h (k, b) (List.mem_cons_self _ _)
      simpa using this
    rw [hck]
    exact ih (fun kv2 hkv2 => h kv2 (List.mem_cons_of_mem _ hkv2))

theorem map_id_on {f : Char → Char} : ∀ s : PyStr, (∀ c ∈ s, f c = c) → s.map f = s := by
  intro s
  induction s with
  | nil => intro _; rfl
  | cons c rest ih =>
    intro h
    rw [List.map_cons, h c (List.mem_cons_self _ _),
      ih (fun x hx => h x (List.mem_cons_of_mem _ hx))]

theorem flatMap_id_on {f : Char → PyStr} : ∀ s : PyStr, (∀ c ∈ s, f c = [c]) →
    s.flatMap f = s := by
  intro s
  induction s with
  | nil => intro _; rfl
  | cons c rest ih =>
    intro h
    rw [List.flatMap_cons, h c (List.mem_cons_self _ _),
      ih (fun x hx => h x (List.mem_cons_of_mem _ hx))]
    rfl

theorem foldl_map_replace (ds : PyStr) : ∀ s : PyStr,
    ds.foldl (fun t dash => t.map (fun c => if c = dash then '-' else c)) s
      = s.map (fun c => ds.foldl (fun x d => if x = d then '-' else x) c) := by
  induction ds with
  | nil => intro s; simp
  | cons d ds ih =>
    intro s
    show ds.foldl _ (s.map _) = _
    rw [ih (s.map _), List.map_map]
    rfl

theorem foldl_replace_id (c : Char) : ∀ ds : PyStr, c ∉ ds →
    ds.foldl (fun x d => if x = d then '-' else x) c = c := by
  intro ds
  induction ds with
  | nil => intro _; rfl
  | cons d ds ih =>
    intro h
    have hcd : c ≠ d := fun hc => h (hc ▸ List.mem_cons_self _ _)
    show ds.foldl _ (if c = d then '-' else c) = c
    rw [if_neg hcd]
    exact ih (fun hc => h (List.mem_cons_of_mem _ hc))

theorem isPrefixOf_mem {pat s : PyStr} (h : pat.isPrefixOf s = true) :
    ∀ a ∈ pat, a ∈ s :=
  fun _ ha => (List.isPrefixOf_iff_prefix.mp h).subset ha

theorem replaceSubAux_mem {pat rep : PyStr} :
    ∀ (n : ℕ) (s : PyStr) (c : Char), c ∈ replaceSubAux pat rep n s → c ∈ s ∨ c ∈ rep := by
  intro n
  induction n with
  | zero => intro s c h; exact Or.inl h
  | succ m ih =>
    intro s c h
    match s with
    | [] => cases h
    | b :: rest =>
      unfold replaceSubAux at h
      split at h
      · rcases List.mem_append.mp h with hr | hr
        · exact Or.inr hr
        · rcases ih _ c hr with hm | hm
          · exact Or.inl (List.mem_of_mem_drop hm)
          · exact Or.inr hm
      · rcases List.mem_cons.mp h with rfl | hr
        · exact Or.inl (List.mem_cons_self _ _)
        · rcases ih _ c hr with hm | hm
          · exact Or.inl (List.mem_cons_of_mem _ hm)
          · exact Or.inr hm

theorem replaceSubAux_id_of_not_mem {pat rep : PyStr} {x : Char} (hx : x ∈ pat) :
    ∀ (n : ℕ) (s : PyStr), x ∉ s → replaceSubAux pat rep n s = s := by
  intro n
  induction n with
  | zero => intro s _; rfl
  | succ m ih =>
    intro s hs
    match s with
    | [] => rfl
    | b :: rest =>
      unfold replaceSubAux
      rw [if_neg, ih rest (fun hc => hs (List.mem_cons_of_mem _ hc))]
      rintro ⟨-, hpre⟩
      exact hs (isPrefixOf_mem hpre x hx)

theorem dropWhile_head_false {p : Char → Bool} :
    ∀ (l : PyStr) {c : Char} {rest : PyStr}, l.dropWhile p = c :: rest → p c = false := by
  intro l
  induction l with
  | nil => intro c rest h; cases h
  | cons b l ih =>
    intro c rest h
    rw [List.dropWhile_cons] at h
    split at h
    · exact ih h
    · next hb =>
      cases h
      simpa using hb

theorem dropWhile_all {α : Type} {p : α → Bool} :
    ∀ l : List α, (∀ c ∈ l, p c = true) → l.dropWhile p = [] := by
  intro l
  induction l with
  | nil => intro _; rfl
  | cons b l ih =>
    intro h
    rw [List.dropWhile_cons, if_pos (h b (List.mem_cons_self _ _))]
    exact ih (fun c hc => h c (List.mem_cons_of_mem _ hc))

theorem takeWhile_all {α : Type} {p : α → Bool} :
    ∀ l : List α, (∀ c ∈ l, p c = true) → l.takeWhile p = l := by
  intro l
  induction l with
  | nil => intro _; rfl
  | cons b l ih =>
    intro h
    rw [List.takeWhile_cons, if_pos (h b (List.mem_cons_self _ _))]
    rw [ih (fun c hc => h c (List.mem_cons_of_mem _ hc))]

theorem dropWhile_append_all {α : Type} {p : α → Bool} :
    ∀ (l t : List α), (∀ c ∈ l, p c = true) → (l ++ t).dropWhile p = t.dropWhile p := by
  intro l t
  induction l with
  | nil => intro _; rfl
  | cons b l ih =>
    intro h
    rw [List.cons_append, List.dropWhile_cons, if_pos (h b (List.mem_cons_self _ _))]
    exact ih (fun c hc => h c (List.mem_cons_of_mem _ hc))

theorem takeWhile_append_word {α : Type} {q : α → Bool} :
    ∀ (w t : List α), (∀ c ∈ w, q c = true) → (w ++ t).takeWhile q = w ++ t.takeWhile q := by
  intro w t
  induction w with
  | nil => intro _; rfl
  | cons b w ih =>
    intro h
    rw [List.cons_append, List.takeWhile_cons, if_pos (h b (List.mem_cons_self _ _)),
      ih (fun c hc => h c (List.mem_cons_of_mem _ hc))]
    rfl

theorem dropWhile_append_word {α : Type} {q : α → Bool} :
    ∀ (w t : List α), (∀ c ∈ w, q c = true) → (w ++ t).dropWhile q = t.dropWhile q := by
  intro w t
  induction w with
  | nil => intro _; rfl
  | cons b w ih =>
    intro h
    rw [List.cons_append, List.dropWhile_cons, if_pos (h b (List.mem_cons_self _ _))]
    exact ih (fun c hc => h c (List.mem_cons_of_mem _ hc))

theorem splitWsAux_nil : ∀ n : ℕ, splitWsAux n [] = [] := by
  intro n
  cases n <;> rfl

theorem splitWsAux_words :
    ∀ (n : ℕ) (s : PyStr), ∀ w ∈ splitWsAux n s, w ≠ [] ∧ ∀ c ∈ w, isSpaceChar c = false := by
  intro n
  induction n with
  | zero => intro s w hw; cases hw
  | succ m ih =>
    intro s w hw
    unfold splitWsAux at hw
    rcases hd : s.dropWhile isSpaceChar with _ | ⟨c, rest⟩ <;> rw [hd] at hw
    · cases hw
    · have hc : isSpaceChar c = false := dropWhile_head_false s hd
      rcases List.mem_cons.mp hw with rfl | hw2
      · constructor
        · rw [List.takeWhile_cons, if_pos (by simp [hc])]
          simp
        · intro x hx
          have := List.mem_takeWhile_imp hx
          simpa using this
      · exact ih _ w hw2

theorem splitWsAux_chars :
    ∀ (n : ℕ) (s : PyStr), ∀ w ∈ splitWsAux n s, ∀ c ∈ w, c ∈ s := by
  intro n
  induction n with
  | zero => intro s w hw; cases hw
  | succ m ih =>
    intro s w hw c hc
    unfold splitWsAux at hw
    rcases hd : s.dropWhile isSpaceChar with _ | ⟨b, rest⟩ <;> rw [hd] at hw
    · cases hw
    · have hsub : (b :: rest) ⊆ s := by
        rw [← hd]
        exact (List.dropWhile_sublist _).subset
      rcases List.mem_cons.mp hw with rfl | hw2
      · exact hsub ((List.takeWhile_sublist _).subset hc)
      · have := ih _ w hw2 c hc
        exact hsub ((List.dropWhile_sublist _).subset this)

theorem joinWords_cons_cons (w r : PyStr) (rest : List PyStr) :
    joinWords (w :: r :: rest) = w ++ ' ' :: joinWords (r :: rest) := rfl

theorem joinWords_length_ge :
    ∀ ws : List PyStr, (∀ w ∈ ws, w ≠ []) → ws.length ≤ (joinWords ws).length := by
  intro ws
  induction ws with
  | nil => intro _; simp [joinWords]
  | cons w rest ih =>
    intro h
    match rest with
    | [] =>
      have hw := h w (List.mem_cons_self _ _)
      have : 1 ≤ w.length := by
        rcases w with _ | ⟨c, w'⟩
        · exact absurd rfl hw
        · simp
      simpa [joinWords] using this
    | r :: rs =>
      rw [joinWords_cons_cons]
      have := ih (fun x hx => h x (List.mem_cons_of_mem _ hx))
      simp only [List.length_append, List.length_cons]
      simp only [List.length_cons] at this
      omega

theorem joinWords_chars :
    ∀ (ws : List PyStr) (c : Char), c ∈ joinWords ws → c = ' ' ∨ ∃ w ∈ ws, c ∈ w := by
  intro ws
  induction ws with
  | nil => intro c hc; cases hc
  | cons w rest ih =>
    intro c hc
    match rest with
    | [] => exact Or.inr ⟨w, List.mem_cons_self _ _, hc⟩
    | r :: rs =>
      rw [joinWords_cons_cons] at hc
      rcases List.mem_append.mp hc with hm | hm
      · exact Or.inr ⟨w, List.mem_cons_self _ _, hm⟩
      · rcases List.mem_cons.mp hm with rfl | hm2
        · exact Or.inl rfl
        · rcases ih c hm2 with h | ⟨w2, hw2, hcw⟩
          · exact Or.inl h
          · exact Or.inr ⟨w2, List.mem_cons_of_mem _ hw2, hcw⟩

theorem splitWsAux_join :
    ∀ (ws : List PyStr) (n : ℕ) (sp : PyStr),
      ws.length ≤ n → (∀ c ∈ sp, isSpaceChar c = true) →
      (∀ w ∈ ws, w ≠ [] ∧ ∀ c ∈ w, isSpaceChar c = false) →
      splitWsAux n (sp ++ joinWords ws) = ws := by
  intro ws
  induction ws with
  | nil =>
    intro n sp _ hsp _
    show splitWsAux n (sp ++ joinWords []) = []
    have : joinWords [] = [] := rfl
    rw [this, List.append_nil]
    cases n with
    | zero => rfl
    | succ m =>
      unfold splitWsAux
      rw [dropWhile_all sp hsp]
  | cons w rest ih =>
    intro n sp hn hsp hws
    obtain ⟨hwne, hwchars⟩ := hws w (List.mem_cons_self _ _)
    have hwq : ∀ c ∈ w, (fun x => !(isSpaceChar x)) c = true := by
      intro c hc
      simp [hwchars c hc]
    cases n with
    | zero => simp at hn
    | succ m =>
      rcases w with _ | ⟨c, w'⟩
      · exact absurd rfl hwne
      have hc : isSpaceChar c = false := hwchars c (List.mem_cons_self _ _)
      have hwq' : ∀ x ∈ w', (fun x => ¬ isSpaceChar x : Char → Bool) x = true := by
        intro x hx
        simp [hwchars x (List.mem_cons_of_mem _ hx)]
      match rest with
      | [] =>
        have hjw : joinWords [c :: w'] = c :: w' := rfl
        unfold splitWsAux
        rw [hjw, dropWhile_append_all sp _ hsp, List.dropWhile_cons, if_neg (by simp [hc])]
        dsimp only
        have htake : (c :: w').takeWhile (fun x => ¬ isSpaceChar x) = c :: w' :=
          takeWhile_all _ (by intro x hx; simpa using hwchars x hx)
        have hdrop : (c :: w').dropWhile (fun x => ¬ isSpaceChar x) = [] :=
          dropWhile_all _ (by intro x hx; simpa using hwchars x hx)
        rw [htake, hdrop, splitWsAux_nil]
      | r :: rs =>
        rw [joinWords_cons_cons]
        unfold splitWsAux
        rw [List.cons_append, dropWhile_append_all sp _ hsp, List.dropWhile_cons,
          if_neg (by simp [hc])]
        dsimp only
        have htake : (w' ++ ' ' :: joinWords (r :: rs)).takeWhile
            (fun x => ¬ isSpaceChar x) = w' := by
          rw [takeWhile_append_word _ _ hwq', List.takeWhile_cons,
            if_neg (by simp [isSpaceChar])]
          simp
        have hdrop : (w' ++ ' ' :: joinWords (r :: rs)).dropWhile
            (fun x => ¬ isSpaceChar x) = ' ' :: joinWords (r :: rs) := by
          rw [dropWhile_append_word _ _ hwq', List.dropWhile_cons,
            if_neg (by simp [isSpaceChar])]
        rw [List.takeWhile_cons, if_pos (by simp [hc]), htake, List.dropWhile_cons,
          if_pos (by simp [hc]), hdrop]
        have hrec : splitWsAux m ([' '] ++ joinWords (r :: rs)) = r :: rs := by
          apply ih m [' ']
          · simpa using hn
          · intro x hx
            rcases List.mem_singleton.mp hx with rfl
            rfl
          · intro x hx
            exact hws x (List.mem_cons_of_mem _ hx)
        rw [show ' ' :: joinWords (r :: rs) = [' '] ++ joinWords (r :: rs) from rfl, hrec]

theorem collapse_collapse (s : PyStr) : collapse (collapse s) = collapse s := by
  have hwords := splitWsAux_words s.length s
  have hne : ∀ w ∈ splitWs s, w ≠ [] := fun w hw => (hwords w hw).1
  have hlen : (splitWs s).length ≤ (joinWords (splitWs s)).length :=
    joinWords_length_ge _ hne
  have hx : splitWs (joinWords (splitWs s)) = splitWs s := by
    unfold splitWs
    have := splitWsAux_join (splitWsAux s.length s)
      (joinWords (splitWsAux s.length s)).length []
      (by simpa using hlen) (by intro c hc; cases hc) hwords
    simpa using this
  show joinWords (splitWs (joinWords (splitWs s))) = joinWords (splitWs s)
  rw [hx]

/-- The per-character effect of the dash loop of `normalize_unicode`. -/
def dashRepl (c : Char) : Char :=
  dashChars.foldl (fun x d => if x = d then '-' else x) c

/-- The per-character effect of line 50 of text_utils.py (an identity). -/
def quoteFix (c : Char) : Char := if c = dquote then dquote else c

/-- `replace('«', '"')` per character. -/
def guilFix1 (c : Char) : Char := if c = '«' then dquote else c

/-- `replace('»', '"')` per character. -/
def guilFix2 (c : Char) : Char := if c = '»' then dquote else c

/-- The composite of all single-character replacements of
`normalize_unicode`, in source order. -/
def fixups (c : Char) : Char := guilFix2 (guilFix1 (quoteFix (quoteFix (dashRepl c))))

/-- A character is stable when every stage of the normalisation pipeline
leaves it alone and the word/whitespace filter keeps it. -/
def StableB (c : Char) : Bool :=
  decide (nfkcChar c = [c]) && !(dashChars.contains c) && !(decide (c = '«'))
    && !(decide (c = '»')) && !(decide (c = dquote)) && decide (pyLower c = c)
    && decide (nfdChar c = [c]) && !(isMn c) && (isWordChar c || isSpaceChar c)

theorem StableB.props (c : Char) (h : StableB c = true) :
    nfkcChar c = [c] ∧ dashChars.contains c = false ∧ c ≠ '«' ∧ c ≠ '»'
    ∧ c ≠ dquote ∧ pyLower c = c ∧ nfdChar c = [c] ∧ isMn c = false
    ∧ (isWordChar c || isSpaceChar c) = true := by
  simp only [StableB, Bool.and_eq_true, Bool.not_eq_true', decide_eq_true_eq,
    decide_eq_false_iff_not] at h
  tauto

/-- All characters treated non-trivially by any table of the model. -/
def specialChars : PyStr :=
  (nfkcTable.map Prod.fst) ++ dashChars ++ ['«', '»', dquote, apostrophe]
    ++ (lowerTable.map Prod.fst) ++ (nfdTable.map Prod.fst) ++ mnChars

set_option maxRecDepth 4000 in
/-- Every character that survives the lower/NFD/mark-stripping/word-filter
tail of the pipeline, starting from an NFKC output run through the
replacement fixups, is stable. -/
theorem char_master :
    ∀ c : Char, ∀ e ∈ nfkcChar c, ∀ d ∈ nfdChar (pyLower (fixups e)),
      isMn d = false → (isWordChar d || isSpaceChar d) = true → StableB d = true := by
  have key : ∀ x ∈ specialChars, ∀ e ∈ nfkcChar x,
      ∀ d ∈ nfdChar (pyLower (fixups e)),
      isMn d = false → (isWordChar d || isSpaceChar d) = true → StableB d = true := by
    decide
  intro c
  by_cases hc : c ∈ specialChars
  · exact key c hc
  · have hnotmem : ∀ x ∈ specialChars, c ≠ x := fun x hx hcx => hc (hcx ▸ hx)
    have h1 : ∀ kv ∈ nfkcTable, c ≠ kv.1 := by
      intro kv hkv
      exact hnotmem kv.1 (by
        unfold specialChars
        refine List.mem_append_left _ ?_
        refine List.mem_append_left _ ?_
        refine List.mem_append_left _ ?_
        refine List.mem_append_left _ ?_
        exact List.mem_append_left _ (List.mem_map_of_mem Prod.fst hkv))
    have h2 : ∀ kv ∈ lowerTable, c ≠ kv.1 := by
      intro kv hkv
      exact hnotmem kv.1 (by
        unfold specialChars
        refine List.mem_append_left _ ?_
        refine List.mem_append_left _ ?_
        exact List.mem_append_right _ (List.mem_map_of_mem Prod.fst hkv))
    have h3 : ∀ kv ∈ nfdTable, c ≠ kv.1 := by
      intro kv hkv
      exact hnotmem kv.1 (by
        unfold specialChars
        refine List.mem_append_left _ ?_
        exact List.mem_append_right _ (List.mem_map_of_mem Prod.fst hkv))
    have h4 : c ∉ dashChars := by
      intro hd
      exact hnotmem c (by
        unfold specialChars
        refine List.mem_append_left _ ?_
        refine List.mem_append_left _ ?_
        refine List.mem_append_left _ ?_
        refine List.mem_append_left _ ?_
        exact List.mem_append_right _ hd) rfl
    have h5 : c ∉ mnChars := by
      intro hd
      exact hnotmem c (by
        unfold specialChars
        exact List.mem_append_right _ hd) rfl
    have h6 : c ≠ '«' ∧ c ≠ '»' ∧ c ≠ dquote := by
      refine ⟨?_, ?_, ?_⟩ <;>
        · intro hce
          refine hnotmem _ ?_ hce
          unfold specialChars
          refine List.mem_append_left _ ?_
          refine List.mem_append_left _ ?_
          refine List.mem_append_left _ ?_
          refine List.mem_append_right _ ?_
          simp
    have hnfkc : nfkcChar c = [c] := by
      unfold nfkcChar
      rw [lookup_eq_none_of_forall_ne _ _ h1]
      rfl
    have hlower : pyLower c = c := by
      unfold pyLower
      rw [lookup_eq_none_of_forall_ne _ _ h2]
      rfl
    have hnfd : nfdChar c = [c] := by
      unfold nfdChar
      rw [lookup_eq_none_of_forall_ne _ _ h3]
      rfl
    have hfix : fixups c = c := by
      unfold fixups dashRepl quoteFix guilFix1 guilFix2
      rw [foldl_replace_id c dashChars h4]
      rw [if_neg h6.2.2, if_neg h6.2.2, if_neg h6.1, if_neg h6.2.1]
    intro e he d hd hmn hkeep
    rw [hnfkc] at he
    have hec : e = c := List.mem_singleton.mp he
    rw [hec, hfix, hlower, hnfd] at hd
    have hdc : d = c := List.mem_singleton.mp hd
    rw [hdc] at hmn hkeep ⊢
    simp [StableB, hnfkc, h4, h6.1, h6.2.1, h6.2.2, hlower, hnfd, hmn, hkeep]

theorem apostrophe_filtered :
    ∀ d ∈ nfdChar (pyLower (guilFix2 (guilFix1 apostrophe))),
      (isWordChar d || isSpaceChar d) = false := by
  decide

/-- Every character in the output of `normalize_for_comparison` is stable. -/
theorem normalize_chars_stable (s : PyStr) :
    ∀ c ∈ normalize_for_comparison s, StableB c = true := by
  intro c hc
  by_cases hs : s = []
  · subst hs
    simp [normalize_for_comparison] at hc
  · rw [normalize_for_comparison, if_neg hs] at hc
    unfold collapse at hc
    rcases joinWords_chars _ c hc with hsp | ⟨w, hw, hcw⟩
    · subst hsp
      decide
    · have hc4 := splitWsAux_chars _ _ w hw c hcw
      simp only [List.mem_filter, decide_eq_true_eq, Bool.not_eq_true] at hc4
      obtain ⟨⟨hc2, hnm⟩, hkeep⟩ := hc4
      rw [List.mem_flatMap] at hc2
      obtain ⟨e0, he0, hcd⟩ := hc2
      rw [List.mem_map] at he0
      obtain ⟨e1, he1, rfl⟩ := he0
      rw [normalize_unicode, if_neg hs] at he1
      rw [List.mem_map] at he1
      obtain ⟨e2, he2, rfl⟩ := he1
      rw [List.mem_map] at he2
      obtain ⟨e3, he3, rfl⟩ := he2
      unfold replaceSub at he3
      rcases replaceSubAux_mem _ _ e3 he3 with he3m | he3r
      · rw [List.mem_map] at he3m
        obtain ⟨e4, he4, rfl⟩ := he3m
        rw [List.mem_map] at he4
        obtain ⟨e5, he5, rfl⟩ := he4
        rw [foldl_map_replace] at he5
        rw [List.mem_map] at he5
        obtain ⟨e6, he6, rfl⟩ := he5
        rw [List.mem_flatMap] at he6
        obtain ⟨c0, hc0, he6b⟩ := he6
        have hcd2 : c ∈ nfdChar (pyLower (fixups e6)) := hcd
        exact char_master c0 e6 he6b c hcd2 hnm hkeep
      · have he3a : e3 = apostrophe := List.mem_singleton.mp he3r
        subst he3a
        have hcd2 : c ∈ nfdChar (pyLower (guilFix2 (guilFix1 apostrophe))) := hcd
        have hfalse := apostrophe_filtered c hcd2
        rw [hkeep] at hfalse
        exact Bool.noConfusion hfalse

/-- A string of stable characters that is already whitespace-collapsed is a
fixed point of `normalize_for_comparison`. -/
theorem normalize_fix_of_stable (y : PyStr) (hst : ∀ c ∈ y, StableB c = true)
    (hcol : collapse y = y) : normalize_for_comparison y = y := by
  by_cases hy : y = []
  · subst hy
    rfl
  · rw [normalize_for_comparison, if_neg hy]
    have hnu : normalize_unicode y = y := by
      rw [normalize_unicode, if_neg hy]
      rw [flatMap_id_on y (fun c hc => (StableB.props c (hst c hc)).1)]
      rw [foldl_map_replace]
      rw [map_id_on y (fun c hc => foldl_replace_id c dashChars
        (by simpa using (StableB.props c (hst c hc)).2.1))]
      rw [map_id_on y (fun c hc => if_neg (StableB.props c (hst c hc)).2.2.2.2.1)]
      rw [map_id_on y (fun c hc => if_neg (StableB.props c (hst c hc)).2.2.2.2.1)]
      have hq : dquote ∉ y := by
        intro hdm
        exact (StableB.props dquote (hst dquote hdm)).2.2.2.2.1 rfl
      rw [show replaceSub line51pat [apostrophe] y = y from
        replaceSubAux_id_of_not_mem (by decide) _ y hq]
      rw [map_id_on y (fun c hc => if_neg (StableB.props c (hst c hc)).2.2.1)]
      rw [map_id_on y (fun c hc => if_neg (StableB.props c (hst c hc)).2.2.2.1)]
    rw [hnu]
    rw [map_id_on y (fun c hc => (StableB.props c (hst c hc)).2.2.2.2.2.1)]
    rw [flatMap_id_on y (fun c hc => (StableB.props c (hst c hc)).2.2.2.2.2.2.1)]
    rw [List.filter_eq_self.mpr (fun c hc =>
      (StableB.props c (hst c (List.mem_of_mem_filter hc))).2.2.2.2.2.2.2.2)]
    rw [List.filter_eq_self.mpr (fun c hc => by
      simp [(StableB.props c (hst c hc)).2.2.2.2.2.2.2.1])]
    exact hcol

/-- C8: `normalize_for_comparison` is idempotent, and `titles_match` is
symmetric in its two arguments. -/
theorem C8_normalize_idempotent_titles_match_symmetric :
    (∀ s : PyStr, normalize_for_comparison (normalize_for_comparison s)
        = normalize_for_comparison s)
    ∧ (∀ a b : PyStr, titles_match a b = titles_match b a) := by
  constructor
  · intro s
    by_cases hs : s = []
    · subst hs
      rfl
    · refine normalize_fix_of_stable _ (normalize_chars_stable s) ?_
      rw [normalize_for_comparison, if_neg hs]
      exact collapse_collapse _
  · intro a b
    unfold titles_match
    exact decide_eq_decide.mpr eq_comm

/-- `YEAR_TOLERANCE` (constants.py 113). -/
def YEAR_TOLERANCE : ℤ := 2

/-- `TITLE_SIMILARITY_THRESHOLD` (constants.py 112). -/
def TITLE_SIMILARITY_THRESHOLD : ℚ := 3 / 10

/-- `VPROFilm` (models.py 15-35), restricted to the fields the embedded
search functions consult; director, url, ids, genres, ratings and images are
carried opaquely by the Python code and never examined by the matching
logic modelled here. -/
structure VPROFilm where
  title : PyStr
  year : Option ℤ := none
  description : Option PyStr := none
  imdb_id : Option PyStr := none
  lookup_method : Option PyStr := none
deriving DecidableEq

/-- Python truthiness of an optional int (`None` and `0` are falsy). -/
def truthyInt : Option ℤ → Bool
  | none => false
  | some v => decide (v ≠ 0)

/-- Python truthiness of an optional string (`None` and `""` are falsy). -/
def truthyStr : Option PyStr → Bool
  | none => false
  | some s => decide (s ≠ [])

/-- Value of an optional int where Python would use the unwrapped value. -/
def optInt : Option ℤ → ℤ
  | none => 0
  | some v => v

/-- `films = [f for f in films if f and f.description]` (poms_client.py 615-617):
drop unparsed items and films without a truthy description. -/
def candidateFilms (films0 : List (Option VPROFilm)) : List VPROFilm :=
  (films0.filterMap id).filter (fun f => truthyStr f.description)

/-- `search_poms_api` (poms_client.py 577-673) from the point where the POMS
items have been fetched and parsed: `films0` is the list of `parse_item`
results (`none` for items the parser rejected).  An empty candidate list
models both `if not items` and `if not films`; the exception path only
turns errors into `None` and is not reachable in this pure model. -/
def search_poms_api (films0 : List (Option VPROFilm)) (title : PyStr)
    (year : Option ℤ) (imdb_id : Option PyStr) : Option VPROFilm :=
  let films := candidateFilms films0
  if films = [] then none
  else
    match (if truthyInt year then
        films.find? (fun film => decide (film.year = year) && titles_match film.title title)
      else none) with
    | some film => some film
    | none =>
      match films.find? (fun film => titles_match film.title title
          && !(truthyInt year && truthyInt film.year
                && decide (YEAR_TOLERANCE < |optInt film.year - optInt year|))) with
      | some film => some film
      | none =>
        if truthyStr imdb_id then none
        else
          match films with
          | [] => none
          | best :: _ =>
            if truthyInt year
                && decide (YEAR_TOLERANCE
                    < (if truthyInt best.year && truthyInt year
                        then |optInt best.year - optInt year| else 0)) then none
            else if decide (title_similarity title best.title < TITLE_SIMILARITY_THRESHOLD) then
              none
            else some best

/-- The acceptance policy exactly as the specification words it: first any
candidate with matching normalised title and exactly the given year; second
any candidate with matching normalised title when no year was given or the
year difference is within tolerance; third the top-ranked candidate, only
when its similarity reaches the threshold, its year is within tolerance,
and no IMDB identifier was supplied. -/
def acceptance_policy (films : List VPROFilm) (title : PyStr)
    (year : Option ℤ) (imdb_id : Option PyStr) : Option VPROFilm :=
  match films.find? (fun f => titles_match f.title title && decide (f.year = year)) with
  | some f => some f
  | none =>
    match films.find? (fun f => titles_match f.title title
        && (decide (year = none)
            || (match f.year, year with
                | some a, some b => decide (|a - b| ≤ YEAR_TOLERANCE)
                | _, _ => false))) with
    | some f => some f
    | none =>
      match films with
      | [] => none
      | best :: _ =>
        if truthyStr imdb_id then none
        else if decide (TITLE_SIMILARITY_THRESHOLD ≤ title_similarity title best.title)
            && (decide (year = none)
                || (match best.year, year with
                    | some a, some b => decide (|a - b| ≤ YEAR_TOLERANCE)
                    | _, _ => false)) then some best
        else none

theorem find?_congr_mem {α : Type} {p q : α → Bool} :
    ∀ l : List α, (∀ x ∈ l, p x = q x) → l.find? p = l.find? q := by
  intro l
  induction l with
  | nil => intro _; rfl
  | cons a l ih =>
    intro h
    rw [List.find?_cons, List.find?_cons, h a (List.mem_cons_self _ _)]
    cases q a
    · exact ih (fun x hx => h x (List.mem_cons_of_mem _ hx))
    · rfl

/-- C4: on candidate lists whose films all carry a nonzero year (and with a
nonzero query year when one is given), `search_poms_api` implements exactly
the specified acceptance policy — exact title+year first, then title with
year tolerance, then the similarity-validated top result — and whenever an
IMDB identifier is supplied, any accepted film comes from the two exact
phases (the fuzzy fallback never accepts): its normalised title equals the
query title. -/
theorem C4_search_poms_acceptance_order
    (films0 : List (Option VPROFilm)) (title : PyStr) (year : Option ℤ)
    (imdb_id : Option PyStr)
    (hy : year ≠ some 0)
    (hfy : ∀ f ∈ candidateFilms films0, f.year ≠ none ∧ f.year ≠ some 0) :
    search_poms_api films0 title year imdb_id
        = acceptance_policy (candidateFilms films0) title year imdb_id
    ∧ (truthyStr imdb_id = true →
        ∀ film : VPROFilm, search_poms_api films0 title year imdb_id = some film →
          titles_match film.title title = true) := by
  have heq : search_poms_api films0 title year imdb_id
      = acceptance_policy (candidateFilms films0) title year imdb_id := by
    unfold search_poms_api acceptance_policy
    set films := candidateFilms films0 with hfilms
    by_cases hemp : films = []
    · rw [if_pos hemp, hemp]
      rfl
    · rw [if_neg hemp]
      have hph1 : (if truthyInt year then
            films.find? (fun film => decide (film.year = year) && titles_match film.title title)
          else none)
          = films.find? (fun f => titles_match f.title title && decide (f.year = year)) := by
        by_cases ht : truthyInt year = true
        · rw [if_pos ht]
          exact find?_congr_mem films (fun f _ => Bool.and_comm _ _)
        · rw [if_neg ht]
          have hyn : year = none := by
            cases year with
            | none => rfl
            | some v =>
              exfalso
              apply ht
              have hv : v ≠ 0 := fun h0 => hy (by rw [h0])
              simp [truthyInt, hv]
          symm
          rw [List.find?_eq_none]
          intro f hf
          obtain ⟨hfne, _⟩ := hfy f hf
          simp [hyn, hfne]
      rw [hph1]
      cases hfind1 : films.find? (fun f => titles_match f.title title && decide (f.year = year)) with
      | some f => rfl
      | none =>
        have hph2 : films.find? (fun film => titles_match film.title title
              && !(truthyInt year && truthyInt film.year
                    && decide (YEAR_TOLERANCE < |optInt film.year - optInt year|)))
            = films.find? (fun f => titles_match f.title title
              && (decide (year = none)
                  || (match f.year, year with
                      | some a, some b => decide (|a - b| ≤ YEAR_TOLERANCE)
                      | _, _ => false))) := by
          apply find?_congr_mem
          intro f hf
          obtain ⟨hfne, hf0⟩ := hfy f hf
          cases hfa : f.year with
          | none => exact absurd hfa hfne
          | some a =>
            have ha0 : a ≠ 0 := fun h => hf0 (by rw [hfa, h])
            cases year with
            | none =>
              simp [truthyInt]
            | some b =>
              have hb0 : b ≠ 0 := fun h => hy (by rw [h])
              have key : (!decide (YEAR_TOLERANCE < |a - b|))
                  = decide (|a - b| ≤ YEAR_TOLERANCE) := by
                rw [← decide_not]
                exact decide_eq_decide.mpr not_lt
              simp [truthyInt, hfa, optInt, ha0, hb0, key]
        rw [hph2]
        cases hfind2 : films.find? (fun f => titles_match f.title title
            && (decide (year = none)
                || (match f.year, year with
                    | some a, some b => decide (|a - b| ≤ YEAR_TOLERANCE)
                    | _, _ => false))) with
        | some f => rfl
        | none =>
          obtain ⟨best, rest, hbr⟩ : ∃ b r, films = b :: r := by
            cases hfc : films with
            | nil => exact absurd hfc hemp
            | cons b r => exact ⟨b, r, rfl⟩
          have hbmem : best ∈ films := by rw [hbr]; exact List.mem_cons_self _ _
          rw [hbr]
          by_cases him : truthyStr imdb_id = true
          · rw [if_pos him]
            dsimp only
            rw [if_pos him]
          · rw [if_neg him]
            dsimp only
            rw [if_neg him]
            obtain ⟨hbne, hb0'⟩ := hfy best hbmem
            cases hba : best.year with
            | none => exact absurd hba hbne
            | some a =>
              have ha0 : a ≠ 0 := fun h => hb0' (by rw [hba, h])
              cases year with
              | none =>
                by_cases hsim : title_similarity title best.title
                    < TITLE_SIMILARITY_THRESHOLD
                · simp [truthyInt, hba, hsim, not_le.mpr hsim]
                · simp [truthyInt, hba, hsim, not_lt.mp hsim]
              | some b =>
                have hb0 : b ≠ 0 := fun h => hy (by rw [h])
                by_cases hyd : YEAR_TOLERANCE < |a - b|
                · simp [truthyInt, hba, optInt, ha0, hb0, hyd, not_le.mpr hyd]
                · by_cases hsim : title_similarity title best.title
                      < TITLE_SIMILARITY_THRESHOLD
                  · simp [truthyInt, hba, optInt, ha0, hb0, hyd, hsim,
                      not_le.mpr hsim, not_lt.mp hyd]
                  · simp [truthyInt, hba, optInt, ha0, hb0, hyd, hsim,
                      not_lt.mp hyd, not_lt.mp hsim]
  refine ⟨heq, ?_⟩
  intro him film hres
  rw [heq] at hres
  unfold acceptance_policy at hres
  split at hres
  · next f hf =>
    rcases Option.some.inj hres with rfl
    have hp := List.find?_some hf
    simp only [Bool.and_eq_true] at hp
    exact hp.1
  · split at hres
    · next f hf =>
      rcases Option.some.inj hres with rfl
      have hp := List.find?_some hf
      simp only [Bool.and_eq_true] at hp
      exact hp.1
    · split at hres
      · exact Option.noConfusion hres
      · rw [if_pos him] at hres
        exact Option.noConfusion hres

/-- A concrete POMS candidate list for exercising the acceptance theorem. -/
def c4films : List (Option VPROFilm) :=
  [some { title := pys "die hard", year := some 1988, description := some (pys "d") }, none]

theorem C4_witness :
    ((some 1990 : Option ℤ) ≠ some 0
      ∧ ∀ f ∈ candidateFilms c4films, f.year ≠ none ∧ f.year ≠ some 0)
    ∧ (search_poms_api c4films (pys "Die Hard") (some 1990) (some (pys "tt0095016"))
        = acceptance_policy (candidateFilms c4films) (pys "Die Hard") (some 1990)
            (some (pys "tt0095016"))) :=
  ⟨⟨by decide, by decide⟩,
    (C4_search_poms_acceptance_order c4films (pys "Die Hard") (some 1990)
      (some (pys "tt0095016")) (by decide) (by decide)).1⟩

/-- A cinema.nl search card; the fallback scraper only consumes its URL. -/
structure SearchCandidate where
  url : PyStr
deriving DecidableEq

/-- `MatchConfidence` (vpro_scraper.py 43-46). -/
inductive MatchConfidence where
  | imdb_exact
  | title_year
deriving DecidableEq

/-- The enum's string payload. -/
def MatchConfidence.value : MatchConfidence → PyStr
  | .imdb_exact => pys "cinema_imdb"
  | .title_year => pys "cinema_title"

/-- `_check_match` (vpro_scraper.py 751-802): IMDB comparison first, then the
title+year loop, then the high-similarity fuzzy loop. -/
def check_match (film : VPROFilm) (target_title : PyStr) (target_year : Option ℤ)
    (target_imdb : Option PyStr) (alt_titles : List PyStr) : Option MatchConfidence :=
  if truthyStr target_imdb && truthyStr film.imdb_id then
    if (target_imdb.getD []).map pyLower = (film.imdb_id.getD []).map pyLower then
      some .imdb_exact
    else none
  else
    match (target_title :: alt_titles).find? (fun ct => titles_match film.title ct
        && (if truthyInt target_year && truthyInt film.year
            then decide (|optInt target_year - optInt film.year| ≤ YEAR_TOLERANCE)
            else !truthyInt target_year)) with
    | some _ => some .title_year
    | none =>
      match (target_title :: alt_titles).find? (fun ct =>
          decide ((8 : ℚ) / 10 ≤ title_similarity film.title ct)
          && truthyInt target_year && truthyInt film.year
          && decide (|optInt target_year - optInt film.year| ≤ YEAR_TOLERANCE)) with
      | some _ => some .title_year
      | none => none

/-- The inner candidate loop of `search_cinema_fallback` (vpro_scraper.py
717-740): scrape each card, skip films without a description, return the
first film `_check_match` accepts, stamped with the confidence value. -/
def scrapeCandidates (scrape : PyStr → Option VPROFilm) (title : PyStr)
    (year : Option ℤ) (imdb_id : Option PyStr) (alt_titles : List PyStr) :
    List SearchCandidate → Option VPROFilm
  | [] => none
  | cand :: rest =>
    match scrape cand.url with
    | none => scrapeCandidates scrape title year imdb_id alt_titles rest
    | some film =>
      if truthyStr film.description then
        match check_match film title year imdb_id alt_titles with
        | some mt => some { film with lookup_method := some mt.value }
        | none => scrapeCandidates scrape title year imdb_id alt_titles rest
      else scrapeCandidates scrape title year imdb_id alt_titles rest

/-- The outer title loop of `search_cinema_fallback` (vpro_scraper.py
706-740): try the primary title then each alternate, searching and scanning
candidates for each. -/
def searchTitles (search : PyStr → Option ℤ → List SearchCandidate)
    (scrape : PyStr → Option VPROFilm) (title : PyStr) (year : Option ℤ)
    (imdb_id : Option PyStr) (alt_titles : List PyStr) :
    List PyStr → Option VPROFilm
  | [] => none
  | t :: ts =>
    match scrapeCandidates scrape title year imdb_id alt_titles (search t year) with
    | some film => some film
    | none => searchTitles search scrape title year imdb_id alt_titles ts

/-- Combines the loop outcome with the breaker bookkeeping at the tail of
`search_cinema_fallback`: a match records a success, no match records a
failure (vpro_scraper.py 728-744). -/
def fallbackFinish (cb1 : CircuitBreaker) (now : Time) :
    Option VPROFilm → Option VPROFilm × CircuitBreaker × Bool
  | some film => (some film, cb1.record_success, true)
  | none => (none, cb1.record_failure now, true)

/-- `search_cinema_fallback` (vpro_scraper.py 662-748).  `search` and
`scrape` stand for the network-backed `CinemaSearcher.search` and
`VPROPageScraper.scrape`; `now` is the `time.monotonic()` reading used by
the module-level circuit breaker `cb`.  The returned `Bool` records whether
the scraping source was consulted at all (`false` exactly on the
breaker-open skip path). -/
def search_cinema_fallback (search : PyStr → Option ℤ → List SearchCandidate)
    (scrape : PyStr → Option VPROFilm) (now : Time) (cb : CircuitBreaker)
    (title : PyStr) (year : Option ℤ) (imdb_id : Option PyStr)
    (alt_titles : List PyStr) : Option VPROFilm × CircuitBreaker × Bool :=
  if (cb.is_open now).1 then (none, (cb.is_open now).2, false)
  else
    fallbackFinish (cb.is_open now).2 now
      (searchTitles search scrape title year imdb_id alt_titles
        (title :: alt_titles.take 5))

theorem CircuitBreaker.record_failure_opened_of_lt (cb : CircuitBreaker) (now : Time)
    (h : ((cb.failures.filter (fun t => now - t < cb.failure_window)) ++ [now]).length
        < cb.failure_threshold) :
    (cb.record_failure now).circuit_opened_at = cb.circuit_opened_at := by
  unfold CircuitBreaker.record_failure
  rw [if_neg (not_le.mpr h)]

theorem CircuitBreaker.record_failure_opened_of_ge (cb : CircuitBreaker) (now : Time)
    (h : cb.failure_threshold
        ≤ ((cb.failures.filter (fun t => now - t < cb.failure_window)) ++ [now]).length) :
    (cb.record_failure now).circuit_opened_at = some now := by
  unfold CircuitBreaker.record_failure
  rw [if_pos h]

/-- Whenever the breaker lets the call proceed and the search completes
without a film, the call records a circuit-breaker failure (and it did
consult the source). -/
theorem fallback_none_records_failure (search : PyStr → Option ℤ → List SearchCandidate)
    (scrape : PyStr → Option VPROFilm) (now : Time) (cb : CircuitBreaker)
    (title : PyStr) (year : Option ℤ) (imdb_id : Option PyStr)
    (alt_titles : List PyStr)
    (hclosed : (cb.is_open now).1 = false)
    (hnone : (search_cinema_fallback search scrape now cb title year imdb_id alt_titles).1
        = none) :
    search_cinema_fallback search scrape now cb title year imdb_id alt_titles
      = (none, ((cb.is_open now).2).record_failure now, true) := by
  unfold search_cinema_fallback at hnone ⊢
  rw [if_neg (by rw [hclosed]; exact Bool.false_ne_true)] at hnone ⊢
  cases hst : searchTitles search scrape title year imdb_id alt_titles
      (title :: alt_titles.take 5) with
  | some film =>
    rw [show (searchTitles search scrape title year imdb_id alt_titles
        (title :: alt_titles.take 5)) = some film from hst] at hnone
    simp [fallbackFinish] at hnone
  | none =>
    rfl

/-- C9: `search_cinema_fallback` records a circuit-breaker failure whenever
it completes without returning a film — in this pure model candidates that
merely fail to match, not exceptions, are the only way to complete empty —
so three no-match lookups at `t1 ≤ t2 ≤ t3` within the 60-second window
leave the breaker opened at `t3`, and a fourth lookup within the 300-second
recovery window returns no film without consulting the scraping source at
all. -/
theorem C9_fallback_records_failure_opens_breaker
    (search : PyStr → Option ℤ → List SearchCandidate)
    (scrape : PyStr → Option VPROFilm)
    (title : PyStr) (year : Option ℤ) (imdb_id : Option PyStr)
    (alt_titles : List PyStr) (t1 t2 t3 t4 : Time)
    (cb1 cb2 cb3 : CircuitBreaker) (s1 s2 s3 : Bool)
    (h12 : t1 ≤ t2) (h23 : t2 ≤ t3) (h34 : t3 ≤ t4)
    (hwin : t3 - t1 < 60) (hrec : t4 - t3 < 300)
    (hr1 : search_cinema_fallback search scrape t1 {} title year imdb_id alt_titles
        = (none, cb1, s1))
    (hr2 : search_cinema_fallback search scrape t2 cb1 title year imdb_id alt_titles
        = (none, cb2, s2))
    (hr3 : search_cinema_fallback search scrape t3 cb2 title year imdb_id alt_titles
        = (none, cb3, s3)) :
    (∀ (cb : CircuitBreaker) (now : Time),
        (cb.is_open now).1 = false →
        (search_cinema_fallback search scrape now cb title year imdb_id alt_titles).1 = none →
        search_cinema_fallback search scrape now cb title year imdb_id alt_titles
          = (none, ((cb.is_open now).2).record_failure now, true))
    ∧ cb3.circuit_opened_at = some t3
    ∧ search_cinema_fallback search scrape t4 cb3 title year imdb_id alt_titles
        = (none, cb3, false) := by
  have cb0eq : (({} : CircuitBreaker).is_open t1) = (false, ({} : CircuitBreaker)) := rfl
  have hgen : ∀ (cb : CircuitBreaker) (now : Time),
      (cb.is_open now).1 = false →
      (search_cinema_fallback search scrape now cb title year imdb_id alt_titles).1 = none →
      search_cinema_fallback search scrape now cb title year imdb_id alt_titles
        = (none, ((cb.is_open now).2).record_failure now, true) :=
    fun cb now hc hn =>
      fallback_none_records_failure search scrape now cb title year imdb_id alt_titles hc hn
  -- first call
  have he1 := hgen ({} : CircuitBreaker) t1 (by rw [cb0eq]) (by rw [hr1])
  rw [hr1, cb0eq] at he1
  have hc1 : cb1 = ({} : CircuitBreaker).record_failure t1 := by
    have := congrArg (fun p : Option VPROFilm × CircuitBreaker × Bool => p.2.1) he1
    simpa using this
  have hth1 : cb1.failure_threshold = 3 := by simp [hc1]
  have hw1 : cb1.failure_window = 60 := by simp [hc1]
  have hrv1 : cb1.recovery_time = 300 := by simp [hc1]
  have hf1 : cb1.failures = [t1] := by simp [hc1]
  have ho1 : cb1.circuit_opened_at = none := by
    rw [hc1, CircuitBreaker.record_failure_opened_of_lt ({} : CircuitBreaker) t1 (by simp)]
  -- second call
  have hio2 : cb1.is_open t2 = (false, cb1) := by
    unfold CircuitBreaker.is_open
    rw [ho1]
  have he2 := hgen cb1 t2 (by rw [hio2]) (by rw [hr2])
  rw [hr2, hio2] at he2
  have hc2 : cb2 = cb1.record_failure t2 := by
    have := congrArg (fun p : Option VPROFilm × CircuitBreaker × Bool => p.2.1) he2
    simpa using this
  have h21 : t2 - t1 < (60 : ℚ) := by linarith
  have hth2 : cb2.failure_threshold = 3 := by
    rw [hc2, CircuitBreaker.record_failure_threshold, hth1]
  have hw2 : cb2.failure_window = 60 := by
    rw [hc2, CircuitBreaker.record_failure_window, hw1]
  have hrv2 : cb2.recovery_time = 300 := by
    rw [hc2, CircuitBreaker.record_failure_recovery, hrv1]
  have hf2 : cb2.failures = [t1, t2] := by
    rw [hc2, CircuitBreaker.record_failure_failures, hf1, hw1]
    simp [h21]
  have ho2 : cb2.circuit_opened_at = none := by
    rw [hc2, CircuitBreaker.record_failure_opened_of_lt cb1 t2 (by
      rw [hf1, hw1, hth1]
      simp [h21])]
    exact ho1
  -- third call
  have hio3 : cb2.is_open t3 = (false, cb2) := by
    unfold CircuitBreaker.is_open
    rw [ho2]
  have he3 := hgen cb2 t3 (by rw [hio3]) (by rw [hr3])
  rw [hr3, hio3] at he3
  have hc3 : cb3 = cb2.record_failure t3 := by
    have := congrArg (fun p : Option VPROFilm × CircuitBreaker × Bool => p.2.1) he3
    simpa using this
  have h31 : t3 - t1 < (60 : ℚ) := hwin
  have h32 : t3 - t2 < (60 : ℚ) := by linarith
  have ho3 : cb3.circuit_opened_at = some t3 := by
    rw [hc3, CircuitBreaker.record_failure_opened_of_ge cb2 t3 (by
      rw [hf2, hw2, hth2]
      simp [h31, h32])]
  have hrv3 : cb3.recovery_time = 300 := by
    rw [hc3, CircuitBreaker.record_failure_recovery, hrv2]
  -- fourth call skips
  have hio4 : cb3.is_open t4 = (true, cb3) := by
    unfold CircuitBreaker.is_open
    rw [ho3]
    dsimp only
    rw [hrv3, if_neg (not_le.mpr hrec)]
  refine ⟨hgen, ho3, ?_⟩
  unfold search_cinema_fallback
  rw [hio4]
  rfl

theorem C9_witness :
    ((0 : Time) ≤ 1 ∧ (1 : Time) ≤ 2 ∧ (2 : Time) ≤ 3
      ∧ (2 : Time) - 0 < 60 ∧ (3 : Time) - 2 < 300
      ∧ search_cinema_fallback (fun _ _ => []) (fun _ => none) 0 {} (pys "t") none none []
          = (none, ⟨3, 60, 300, [0], none⟩, true)
      ∧ search_cinema_fallback (fun _ _ => []) (fun _ => none) 1 ⟨3, 60, 300, [0], none⟩
          (pys "t") none none [] = (none, ⟨3, 60, 300, [0, 1], none⟩, true)
      ∧ search_cinema_fallback (fun _ _ => []) (fun _ => none) 2 ⟨3, 60, 300, [0, 1], none⟩
          (pys "t") none none [] = (none, ⟨3, 60, 300, [0, 1, 2], some 2⟩, true))
    ∧ ((⟨3, 60, 300, [0, 1, 2], some 2⟩ : CircuitBreaker).circuit_opened_at = some 2
      ∧ search_cinema_fallback (fun _ _ => []) (fun _ => none) 3
          (⟨3, 60, 300, [0, 1, 2], some 2⟩ : CircuitBreaker) (pys "t") none none []
          = (none, ⟨3, 60, 300, [0, 1, 2], some 2⟩, false)) :=
by
  have e1 : search_cinema_fallback (fun _ _ => []) (fun _ => none) 0 {} (pys "t") none none []
      = (none, ⟨3, 60, 300, [0], none⟩, true) := by
    norm_num [search_cinema_fallback, CircuitBreaker.is_open, searchTitles, scrapeCandidates,
      fallbackFinish, CircuitBreaker.record_failure]
  have e2 : search_cinema_fallback (fun _ _ => []) (fun _ => none) 1 ⟨3, 60, 300, [0], none⟩
      (pys "t") none none [] = (none, ⟨3, 60, 300, [0, 1], none⟩, true) := by
    norm_num [search_cinema_fallback, CircuitBreaker.is_open, searchTitles, scrapeCandidates,
      fallbackFinish, CircuitBreaker.record_failure]
  have e3 : search_cinema_fallback (fun _ _ => []) (fun _ => none) 2 ⟨3, 60, 300, [0, 1], none⟩
      (pys "t") none none [] = (none, ⟨3, 60, 300, [0, 1, 2], some 2⟩, true) := by
    norm_num [search_cinema_fallback, CircuitBreaker.is_open, searchTitles, scrapeCandidates,
      fallbackFinish, CircuitBreaker.record_failure]
  refine ⟨⟨by norm_num, by norm_num, by norm_num, by norm_num, by norm_num, e1, e2, e3⟩, ?_⟩
  exact (C9_fallback_records_failure_opens_breaker (fun _ _ => []) (fun _ => none) (pys "t")
      none none [] 0 1 2 3 ⟨3, 60, 300, [0], none⟩ ⟨3, 60, 300, [0, 1], none⟩
      ⟨3, 60, 300, [0, 1, 2], some 2⟩ true true true (by norm_num) (by norm_num) (by norm_num)
      (by norm_num) (by norm_num) e1 e2 e3).2
